import Mathlib

/-!
Verification development for the testback strategy-backtesting system.

The definitions below are a shallow embedding of the Python sources:

* `backend/app/data_loader.py` — the bar aggregator
  (`StockDataLoader.load_stock_data`, `_filter_by_timeframe`);
* `backend/app/real_backtest_engine.py` — the cash-ledger engine
  (`_run_simple_ma_strategy`, `_run_ma_strategy`, `_run_rsi_strategy`,
  `_calculate_final_metrics`);
* `backend/app/futures_backtest_engine.py` — the margin engine
  (`FuturesBacktestEngine.run`, `calculate_max_open_contracts`).

Modelling conventions:

* timestamps are minutes since the Unix epoch (`Nat`); the date part of a
  timestamp is its day index `t / 1440`;
* Python/NumPy floats are modelled as exact rationals (`ℚ`); the float
  literal `1e-9` is modelled as `1/10^9`; Python `round(x, n)` (banker's
  rounding) is modelled exactly by `roundN`;
* pandas NaN cells are removed by `_preprocess_data.dropna` before any code
  modelled here runs, so bars carry plain rationals; the NaN/Inf *result*
  sanitization layer is modelled separately with the `FVal` type, which has
  explicit `nan`/`inf` elements;
* `pandas.DataFrame.groupby` on a timestamp-sorted frame with a key that is
  monotone in the timestamp yields exactly the maximal runs of equal key, so
  grouping is modelled by `groupRuns` over the sorted bar list.
-/

/-- Banker's rounding (round half to even) of a rational to an integer,
the semantics of Python's builtin `round`. -/
def roundHalfEven (x : ℚ) : ℤ :=
  let f : ℤ := Int.floor x
  let frac : ℚ := x - f
  if frac < 1/2 then f
  else if 1/2 < frac then f + 1
  else if f % 2 = 0 then f else f + 1

/-- Python's `round(x, n)`: banker's rounding at `n` decimal places. -/
def roundN (n : Nat) (x : ℚ) : ℚ :=
  (roundHalfEven (x * (10 ^ n : ℕ))) / (10 ^ n : ℕ)

/-- `round(x, 2)`, the rounding applied to recorded amounts and pnl. -/
def round2 (x : ℚ) : ℚ := roundN 2 x

/-- `round(x, 4)`, the rounding applied to recorded ratios. -/
def round4 (x : ℚ) : ℚ := roundN 4 x

/-- One OHLCV bar (one row of the loaded DataFrame).  `timestamp` is in
minutes since the epoch.  The `amount` column is modelled as always present
(the sources treat it as optional and aggregate it exactly like `volume`
when it exists). -/
structure Bar where
  timestamp : Nat
  open_ : ℚ
  high : ℚ
  low : ℚ
  close : ℚ
  volume : ℚ
  amount : ℚ
deriving DecidableEq, Repr, Inhabited

/-- The date part of a timestamp: `df['timestamp'].dt.date`. -/
def dateOf (t : Nat) : Nat := t / 1440

/-- The timeframe strings understood by `_filter_by_timeframe`'s `rule_map`;
`other` stands for any string outside the map (the function then returns the
data unchanged). -/
inductive Timeframe
  | t1m | t5m | t15m | t30m | t1h | t4h | t1d | t1w | t1M | other
deriving DecidableEq, Repr

/-- The timeframes handled by the explicit groupby branches of
`_filter_by_timeframe` (daily, weekly, hourly, 4-hourly).  These take the
group's maximal timestamp as the output bar's timestamp. -/
def Timeframe.grouped : Timeframe → Bool
  | .t1d => true
  | .t1w => true
  | .t1h => true
  | .t4h => true
  | _ => false

/-- Leap-year test of the proleptic Gregorian calendar. -/
def isLeap (y : Nat) : Bool :=
  y % 4 == 0 && (y % 100 != 0 || y % 400 == 0)

/-- Number of days in month `m` of year `y` (months are 1-based). -/
def daysInMonth (y m : Nat) : Nat :=
  if m = 2 then (if isLeap y then 29 else 28)
  else if m = 4 ∨ m = 6 ∨ m = 9 ∨ m = 11 then 30
  else 31

/-- Civil (year, month) of a day index (days since 1970-01-01), by the
standard Gregorian-calendar conversion. -/
def civilOfDay (d : Nat) : Nat × Nat :=
  let z := d + 719468
  let era := z / 146097
  let doe := z % 146097
  let yoe := (doe - doe / 1460 + doe / 36524 - doe / 146096) / 365
  let y := yoe + era * 400
  let doy := doe - (365 * yoe + yoe / 4 - yoe / 100)
  let mp := (5 * doy + 2) / 153
  let m := if mp < 10 then mp + 3 else mp - 9
  (if m ≤ 2 then y + 1 else y, m)

/-- Day index (days since 1970-01-01) of a civil date, inverse of
`civilOfDay` for dates at or after the epoch. -/
def dayOfCivil (y m d : Nat) : Nat :=
  let y2 := if m ≤ 2 then y - 1 else y
  let era := y2 / 400
  let yoe := y2 % 400
  let mp := if 2 < m then m - 3 else m + 9
  let doy := (153 * mp + 2) / 5 + d - 1
  let doe := yoe * 365 + yoe / 4 - yoe / 100 + doy
  era * 146097 + doe - 719468

/-- The pandas month-end ('M') bin edge of month `(y, m)`: midnight on the
last calendar day of the month, in minutes. -/
def monthEndEdge (y m : Nat) : Nat :=
  1440 * dayOfCivil y m (daysInMonth y m)

/-- Successor month. -/
def nextMonth (y m : Nat) : Nat × Nat :=
  if m = 12 then (y + 1, 1) else (y, m + 1)

/-- Right bin edge of minute `t` under pandas `resample('M', closed='right',
label='right')`: bins are the right-closed intervals between consecutive
month-end-midnight edges. -/
def monthLabel (t : Nat) : Nat :=
  let ym := civilOfDay (t / 1440)
  let e := monthEndEdge ym.1 ym.2
  if t ≤ e then e
  else
    let ym2 := nextMonth ym.1 ym.2
    monthEndEdge ym2.1 ym2.2

/-- Right bin edge of minute `t` for the resample-based timeframes of
`rule_map` (`label='right', closed='right'`).  The minute-grid rules divide
a day evenly, so pandas' start-of-day origin coincides with the absolute
grid: a bar at `t` falls in the bin `(e - w, e]` labelled
`e = w * ⌈t / w⌉`.  The grouped timeframes never reach the resample branch
(their dedicated branches return first); for them this function is unused. -/
def resLabel : Timeframe → Nat → Nat
  | .t1m, t => t
  | .t5m, t => 5 * ((t + 4) / 5)
  | .t15m, t => 15 * ((t + 14) / 15)
  | .t30m, t => 30 * ((t + 29) / 30)
  | .t1M, t => monthLabel t
  | _, t => t

/-- The grouping key of `_filter_by_timeframe`: calendar date for `1d`,
week ending Friday (`to_period('W-FRI')`) for `1w` (day 1 of the epoch,
1970-01-02, was a Friday), floored hour buckets for `1h`/`4h`, and the
right bin edge for the resample rules. -/
def groupKey : Timeframe → Bar → Nat
  | .t1d, b => b.timestamp / 1440
  | .t1w, b => (b.timestamp / 1440 + 5) / 7
  | .t1h, b => b.timestamp / 60
  | .t4h, b => b.timestamp / 240
  | tf, b => resLabel tf b.timestamp

/-- Insert a bar into a timestamp-sorted list (insertion step of
`sort_values('timestamp')`). -/
def insertBar (b : Bar) : List Bar → List Bar
  | [] => [b]
  | c :: r => if b.timestamp ≤ c.timestamp then b :: c :: r else c :: insertBar b r

/-- `df.sort_values('timestamp')`. -/
def sortBars (l : List Bar) : List Bar := l.foldr insertBar []

/-- Maximal runs of equal key.  On a timestamp-sorted list with a key
monotone in the timestamp this is exactly `df.groupby(key)`, in key order
and keeping each group's row order. -/
def groupRuns (key : Bar → Nat) : List Bar → List (List Bar)
  | [] => []
  | b :: rest =>
    match groupRuns key rest with
    | [] => [[b]]
    | [] :: gs => [b] :: gs
    | (c :: gt) :: gs =>
      if key b = key c then (b :: c :: gt) :: gs else [b] :: (c :: gt) :: gs

/-- `l.foldl max x`: the running maximum the aggregation uses. -/
def foldMax {α : Type} [LinearOrder α] (x : α) (l : List α) : α :=
  l.foldl max x

/-- `l.foldl min x`: the running minimum the aggregation uses. -/
def foldMin {α : Type} [LinearOrder α] (x : α) (l : List α) : α :=
  l.foldl min x

/-- Last element of `x :: l` (the `.iloc[-1]` of a nonempty group column). -/
def lastElem {α : Type} (x : α) : List α → α
  | [] => x
  | y :: r => lastElem y r

/-- The per-group aggregation of `_filter_by_timeframe`
(`open=first, high=max, low=min, close=last, volume=sum, amount=sum`),
with `t` the timestamp assigned to the output row.  The empty-group case is
unreachable (pandas produces no row for an empty group). -/
def aggBarAt (t : Nat) : List Bar → Bar
  | [] => default
  | b :: r =>
    { timestamp := t
      open_ := b.open_
      high := foldMax b.high (r.map Bar.high)
      low := foldMin b.low (r.map Bar.low)
      close := lastElem b.close (r.map Bar.close)
      volume := b.volume + (r.map Bar.volume).sum
      amount := b.amount + (r.map Bar.amount).sum }

/-- The timestamp `_filter_by_timeframe` assigns to a group's output row:
the group's maximal timestamp (`group['timestamp'].max()`) for the groupby
branches, and the right bin edge for the resample branch. -/
def groupTs (tf : Timeframe) (g : List Bar) : Nat :=
  match g with
  | [] => 0
  | b :: r =>
    if tf.grouped then foldMax b.timestamp (r.map Bar.timestamp)
    else resLabel tf b.timestamp

/-- The groups `_filter_by_timeframe` aggregates over: sort by timestamp,
then group by the timeframe's key. -/
def groupsOf (tf : Timeframe) (bars : List Bar) : List (List Bar) :=
  groupRuns (groupKey tf) (sortBars bars)

/-- `StockDataLoader._filter_by_timeframe`.  An unknown timeframe returns
the data unchanged (`rule_map` lookup fails).  The trailing
`dropna(subset=['open','high','low','close'])` and the final
`sort_values('timestamp')` are identities here: bars carry no NaN and the
groups of a monotone key over sorted input are produced in timestamp
order. -/
def filterByTimeframe (tf : Timeframe) (bars : List Bar) : List Bar :=
  if tf = .other then bars
  else (groupsOf tf bars).map (fun g => aggBarAt (groupTs tf g) g)

/-- `StockDataLoader.load_stock_data` after the CSV read: `_preprocess_data`
sorts by timestamp (its dropna and validation do not change a valid series),
then an `end_date` cutoff keeps only rows with
`date(timestamp) <= end_date`, and only then `_filter_by_timeframe`
aggregates. -/
def loadStockData (tf : Timeframe) (endDate : Option Nat) (bars : List Bar) : List Bar :=
  let pre := sortBars bars
  let cut :=
    match endDate with
    | some c => pre.filter (fun b => decide (dateOf b.timestamp ≤ c))
    | none => pre
  filterByTimeframe tf cut

theorem mem_insertBar {x b : Bar} {l : List Bar} :
    x ∈ insertBar b l ↔ x = b ∨ x ∈ l := by
  induction l with
  | nil => simp [insertBar]
  | cons c r ih =>
    by_cases h : b.timestamp ≤ c.timestamp
    · simp [insertBar, h]
    · simp [insertBar, h, ih]
      tauto

theorem mem_sortBars {x : Bar} {l : List Bar} :
    x ∈ sortBars l ↔ x ∈ l := by
  induction l with
  | nil => simp [sortBars]
  | cons b r ih =>
    simp only [sortBars, List.foldr] at *
    rw [mem_insertBar, ih]
    simp

/-- Every group produced by `groupRuns` is nonempty and its members come
from the input list. -/
theorem groupRuns_sound {key : Bar → Nat} {l : List Bar} :
    ∀ g ∈ groupRuns key l, g ≠ [] ∧ ∀ x ∈ g, x ∈ l := by
  induction l with
  | nil => simp [groupRuns]
  | cons b rest ih =>
    intro g hg
    rw [groupRuns] at hg
    rcases hrec : groupRuns key rest with _ | ⟨g0, gs⟩
    · rw [hrec] at hg
      simp at hg
      subst hg
      simp
    · rcases g0 with _ | ⟨c, gt⟩
      · rw [hrec] at hg
        simp at hg
        rcases hg with hg | hg
        · subst hg; simp
        · have := ih g (by rw [hrec]; exact List.mem_cons_of_mem _ hg)
          exact ⟨this.1, fun x hx => List.mem_cons_of_mem _ (this.2 x hx)⟩
      · rw [hrec] at hg
        by_cases hkey : key b = key c
        · simp [hkey] at hg
          rcases hg with hg | hg
          · subst hg
            refine ⟨by simp, ?_⟩
            intro x hx
            rcases List.mem_cons.mp hx with rfl | hx2
            · simp
            · have := ih (c :: gt) (by rw [hrec]; simp)
              exact List.mem_cons_of_mem _ (this.2 x hx2)
          · have := ih g (by rw [hrec]; exact List.mem_cons_of_mem _ hg)
            exact ⟨this.1, fun x hx => List.mem_cons_of_mem _ (this.2 x hx)⟩
        · simp [hkey] at hg
          rcases hg with hg | hg | hg
          · subst hg; simp
          · subst hg
            have := ih (c :: gt) (by rw [hrec]; simp)
            exact ⟨this.1, fun x hx => List.mem_cons_of_mem _ (this.2 x hx)⟩
          · have := ih g (by rw [hrec]; exact List.mem_cons_of_mem _ hg)
            exact ⟨this.1, fun x hx => List.mem_cons_of_mem _ (this.2 x hx)⟩

/-- All members of one `groupRuns` group share the key. -/
theorem groupRuns_key_const {key : Bar → Nat} {l : List Bar} :
    ∀ g ∈ groupRuns key l, ∀ x ∈ g, ∀ y ∈ g, key x = key y := by
  induction l with
  | nil => simp [groupRuns]
  | cons b rest ih =>
    intro g hg
    rw [groupRuns] at hg
    rcases hrec : groupRuns key rest with _ | ⟨g0, gs⟩
    · rw [hrec] at hg
      simp at hg
      subst hg
      simp
    · rcases g0 with _ | ⟨c, gt⟩
      · rw [hrec] at hg
        simp at hg
        rcases hg with hg | hg
        · subst hg; simp
        · exact ih g (by rw [hrec]; exact List.mem_cons_of_mem _ hg)
      · rw [hrec] at hg
        by_cases hkey : key b = key c
        · simp [hkey] at hg
          rcases hg with hg | hg
          · subst hg
            have hcg := ih (c :: gt) (by rw [hrec]; simp)
            intro x hx y hy
            have hxval : key x = key c := by
              rcases List.mem_cons.mp hx with rfl | hx2
              · exact hkey
              · exact hcg x hx2 c (by simp)
            have hyval : key y = key c := by
              rcases List.mem_cons.mp hy with rfl | hy2
              · exact hkey
              · exact hcg y hy2 c (by simp)
            rw [hxval, hyval]
          · exact ih g (by rw [hrec]; exact List.mem_cons_of_mem _ hg)
        · simp [hkey] at hg
          rcases hg with hg | hg | hg
          · subst hg; simp
          · subst hg
            exact ih (c :: gt) (by rw [hrec]; simp)
          · exact ih g (by rw [hrec]; exact List.mem_cons_of_mem _ hg)

theorem foldMax_cons {α : Type} [LinearOrder α] (x a : α) (l : List α) :
    foldMax x (a :: l) = foldMax (max x a) l := rfl

theorem le_foldMax {α : Type} [LinearOrder α] (x : α) (l : List α) :
    x ≤ foldMax x l := by
  induction l generalizing x with
  | nil => simp [foldMax]
  | cons a r ih => exact le_trans (le_max_left x a) (ih (max x a))

theorem le_foldMax_of_mem {α : Type} [LinearOrder α] {y : α} {l : List α}
    (x : α) (h : y ∈ l) : y ≤ foldMax x l := by
  induction l generalizing x with
  | nil => simp at h
  | cons a r ih =>
    rw [foldMax_cons]
    rcases List.mem_cons.mp h with rfl | h2
    · exact le_trans (le_max_right x y) (le_foldMax _ _)
    · exact ih _ h2

theorem foldMax_eq_or_mem {α : Type} [LinearOrder α] (x : α) (l : List α) :
    foldMax x l = x ∨ foldMax x l ∈ l := by
  induction l generalizing x with
  | nil => left; rfl
  | cons a r ih =>
    rw [foldMax_cons]
    rcases ih (max x a) with h | h
    · rcases max_cases x a with ⟨h1, _⟩ | ⟨h1, _⟩
      · left; rw [h, h1]
      · right; rw [h, h1]; simp
    · right; exact List.mem_cons_of_mem _ h

theorem foldMin_cons {α : Type} [LinearOrder α] (x a : α) (l : List α) :
    foldMin x (a :: l) = foldMin (min x a) l := rfl

theorem foldMin_le {α : Type} [LinearOrder α] (x : α) (l : List α) :
    foldMin x l ≤ x := by
  induction l generalizing x with
  | nil => simp [foldMin]
  | cons a r ih => exact le_trans (ih (min x a)) (min_le_left x a)

theorem foldMin_le_of_mem {α : Type} [LinearOrder α] {y : α} {l : List α}
    (x : α) (h : y ∈ l) : foldMin x l ≤ y := by
  induction l generalizing x with
  | nil => simp at h
  | cons a r ih =>
    rw [foldMin_cons]
    rcases List.mem_cons.mp h with rfl | h2
    · exact le_trans (foldMin_le _ _) (min_le_right x y)
    · exact ih _ h2

theorem foldMin_eq_or_mem {α : Type} [LinearOrder α] (x : α) (l : List α) :
    foldMin x l = x ∨ foldMin x l ∈ l := by
  induction l generalizing x with
  | nil => left; rfl
  | cons a r ih =>
    rw [foldMin_cons]
    rcases ih (min x a) with h | h
    · rcases min_cases x a with ⟨h1, _⟩ | ⟨h1, _⟩
      · left; rw [h, h1]
      · right; rw [h, h1]; simp
    · right; exact List.mem_cons_of_mem _ h

theorem lastElem_getLast? {α : Type} (x : α) (l : List α) :
    (x :: l).getLast? = some (lastElem x l) := by
  induction l generalizing x with
  | nil => rfl
  | cons y r ih => rw [lastElem, List.getLast?_cons_cons, ih y]

/-- C1: for every raw bar series and every cutoff date, `load_stock_data`
filters the series to bars whose timestamp's date part is `≤` the cutoff
before any timeframe aggregation, so every output bar is built exclusively
from input bars dated at or before the cutoff (for an unknown timeframe the
output bar is itself such an input bar). -/
theorem C1_cutoff_before_aggregation (tf : Timeframe) (c : Nat) (bars : List Bar) :
    ∀ b ∈ loadStockData tf (some c) bars,
      ∃ g : List Bar, g ≠ [] ∧ (∀ x ∈ g, x ∈ bars ∧ dateOf x.timestamp ≤ c) ∧
        (b ∈ g ∨ b = aggBarAt (groupTs tf g) g) := by
  intro b hb
  simp only [loadStockData] at hb
  by_cases htf : tf = .other
  · subst htf
    rw [filterByTimeframe, if_pos rfl] at hb
    refine ⟨[b], by simp, ?_, Or.inl (by simp)⟩
    intro x hx
    rw [List.mem_singleton] at hx
    subst hx
    have h2 := List.mem_filter.mp hb
    exact ⟨mem_sortBars.mp h2.1, by simpa using h2.2⟩
  · rw [filterByTimeframe, if_neg htf] at hb
    rcases List.mem_map.mp hb with ⟨g, hg, rfl⟩
    have hs := groupRuns_sound g hg
    refine ⟨g, hs.1, ?_, Or.inr rfl⟩
    intro x hx
    have hxin := mem_sortBars.mp (hs.2 x hx)
    have h2 := List.mem_filter.mp hxin
    exact ⟨mem_sortBars.mp h2.1, by simpa using h2.2⟩

/-- Input series for the C1 witness: one bar on day 0, one on day 1. -/
def C1bars : List Bar :=
  [{ timestamp := 600, open_ := 10, high := 12, low := 9, close := 11,
     volume := 3, amount := 30 },
   { timestamp := 2040, open_ := 20, high := 22, low := 19, close := 21,
     volume := 5, amount := 100 }]

/-- The single daily bar `load_stock_data` produces from `C1bars` under
cutoff day 0 (the day-1 bar is filtered out before aggregation). -/
def C1outBar : Bar :=
  { timestamp := 600, open_ := 10, high := 12, low := 9, close := 11,
    volume := 3, amount := 30 }

unseal Rat.add Rat.mul Rat.sub Rat.inv in
theorem C1_witness :
    ∃ g : List Bar, g ≠ [] ∧ (∀ x ∈ g, x ∈ C1bars ∧ dateOf x.timestamp ≤ 0) ∧
      (C1outBar ∈ g ∨ C1outBar = aggBarAt (groupTs Timeframe.t1d g) g) :=
  C1_cutoff_before_aggregation Timeframe.t1d 0 C1bars C1outBar (by decide)

/-- C2 (amended): for every mapped timeframe, each aggregated group yields a
bar with `open` = first open, `high` = max high, `low` = min low,
`close` = last close, `volume`/`amount` = sums; the output bar's timestamp
is the group's last (maximum) timestamp for the groupby branches
(`1d`, `1w`, `1h`, `4h`), but for the resample branches it is the
right-closed bin's right edge, not a timestamp of the group. -/
theorem C2_group_aggregation (tf : Timeframe) (bars : List Bar)
    (htf : tf ≠ Timeframe.other) :
    filterByTimeframe tf bars
      = (groupsOf tf bars).map (fun g => aggBarAt (groupTs tf g) g) ∧
    ∀ g ∈ groupsOf tf bars, ∃ hd tl, g = hd :: tl ∧
      ∃ b, b = aggBarAt (groupTs tf g) g ∧
        b.open_ = hd.open_ ∧
        (g.map Bar.close).getLast? = some b.close ∧
        b.high ∈ g.map Bar.high ∧ (∀ x ∈ g, x.high ≤ b.high) ∧
        b.low ∈ g.map Bar.low ∧ (∀ x ∈ g, b.low ≤ x.low) ∧
        b.volume = (g.map Bar.volume).sum ∧
        b.amount = (g.map Bar.amount).sum ∧
        (tf.grouped = true →
          b.timestamp ∈ g.map Bar.timestamp ∧ ∀ x ∈ g, x.timestamp ≤ b.timestamp) ∧
        (tf.grouped = false → b.timestamp = resLabel tf hd.timestamp) := by
  constructor
  · rw [filterByTimeframe, if_neg htf]
  · intro g hg
    obtain ⟨hne, -⟩ := groupRuns_sound g hg
    rcases g with - | ⟨hd, tl⟩
    · exact absurd rfl hne
    refine ⟨hd, tl, rfl, aggBarAt (groupTs tf (hd :: tl)) (hd :: tl), rfl, rfl, ?_, ?_, ?_, ?_, ?_, ?_, ?_, ?_, ?_⟩
    · rw [List.map_cons, lastElem_getLast?]
      rfl
    · rcases foldMax_eq_or_mem hd.high (tl.map Bar.high) with h | h
      · rw [List.map_cons]
        rw [show (aggBarAt (groupTs tf (hd :: tl)) (hd :: tl)).high
              = foldMax hd.high (tl.map Bar.high) from rfl, h]
        simp
      · rw [List.map_cons]
        exact List.mem_cons_of_mem _ h
    · intro x hx
      rcases List.mem_cons.mp hx with rfl | hx2
      · exact le_foldMax _ _
      · exact le_foldMax_of_mem _ (List.mem_map_of_mem Bar.high hx2)
    · rcases foldMin_eq_or_mem hd.low (tl.map Bar.low) with h | h
      · rw [List.map_cons]
        rw [show (aggBarAt (groupTs tf (hd :: tl)) (hd :: tl)).low
              = foldMin hd.low (tl.map Bar.low) from rfl, h]
        simp
      · rw [List.map_cons]
        exact List.mem_cons_of_mem _ h
    · intro x hx
      rcases List.mem_cons.mp hx with rfl | hx2
      · exact foldMin_le _ _
      · exact foldMin_le_of_mem _ (List.mem_map_of_mem Bar.low hx2)
    · rw [List.map_cons, List.sum_cons]
      rfl
    · rw [List.map_cons, List.sum_cons]
      rfl
    · intro hgr
      constructor
      · rcases foldMax_eq_or_mem hd.timestamp (tl.map Bar.timestamp) with h | h
        · rw [List.map_cons]
          rw [show (aggBarAt (groupTs tf (hd :: tl)) (hd :: tl)).timestamp
                = groupTs tf (hd :: tl) from rfl]
          rw [groupTs, hgr, if_pos rfl, h]
          simp
        · rw [List.map_cons]
          rw [show (aggBarAt (groupTs tf (hd :: tl)) (hd :: tl)).timestamp
                = groupTs tf (hd :: tl) from rfl]
          rw [groupTs, hgr, if_pos rfl]
          exact List.mem_cons_of_mem _ h
      · intro x hx
        rw [show (aggBarAt (groupTs tf (hd :: tl)) (hd :: tl)).timestamp
              = groupTs tf (hd :: tl) from rfl]
        rw [groupTs, hgr, if_pos rfl]
        rcases List.mem_cons.mp hx with rfl | hx2
        · exact le_foldMax _ _
        · exact le_foldMax_of_mem _ (List.mem_map_of_mem Bar.timestamp hx2)
    · intro hgr
      rw [show (aggBarAt (groupTs tf (hd :: tl)) (hd :: tl)).timestamp
            = groupTs tf (hd :: tl) from rfl]
      rw [groupTs, hgr]
      simp

/-- Input for the C2 counterexample: two 1-minute bars at minutes 1 and 3,
aggregated under the `5m` timeframe. -/
def C2bars : List Bar :=
  [{ timestamp := 1, open_ := 10, high := 12, low := 9, close := 11,
     volume := 3, amount := 30 },
   { timestamp := 3, open_ := 11, high := 14, low := 10, close := 13,
     volume := 4, amount := 50 }]

unseal Rat.add Rat.mul Rat.sub Rat.inv in
/-- C2 counterexample: under the `5m` timeframe (a resample rule), the
aggregated bar's timestamp is the period boundary 5, while the last
(maximum) timestamp among the grouped input bars is 3 — refuting the
claim that the output timestamp equals the last timestamp of the group for
every timeframe. -/
theorem C2_counterexample :
    (filterByTimeframe Timeframe.t5m C2bars).map Bar.timestamp = [5] ∧
    C2bars.map Bar.timestamp = [1, 3] ∧
    groupsOf Timeframe.t5m C2bars = [C2bars] := by
  refine ⟨?_, by decide, ?_⟩ <;> decide

unseal Rat.add Rat.mul Rat.sub Rat.inv in
theorem C2_witness :
    filterByTimeframe Timeframe.t1d C1bars
      = (groupsOf Timeframe.t1d C1bars).map
          (fun g => aggBarAt (groupTs Timeframe.t1d g) g) ∧
    ∀ g ∈ groupsOf Timeframe.t1d C1bars, ∃ hd tl, g = hd :: tl ∧
      ∃ b, b = aggBarAt (groupTs Timeframe.t1d g) g ∧
        b.open_ = hd.open_ ∧
        (g.map Bar.close).getLast? = some b.close ∧
        b.high ∈ g.map Bar.high ∧ (∀ x ∈ g, x.high ≤ b.high) ∧
        b.low ∈ g.map Bar.low ∧ (∀ x ∈ g, b.low ≤ x.low) ∧
        b.volume = (g.map Bar.volume).sum ∧
        b.amount = (g.map Bar.amount).sum ∧
        (Timeframe.grouped Timeframe.t1d = true →
          b.timestamp ∈ g.map Bar.timestamp ∧ ∀ x ∈ g, x.timestamp ≤ b.timestamp) ∧
        (Timeframe.grouped Timeframe.t1d = false →
          b.timestamp = resLabel Timeframe.t1d hd.timestamp) :=
  C2_group_aggregation Timeframe.t1d C1bars (by decide)

/-- Trade action strings. -/
inductive TAction
  | buy | sell
deriving DecidableEq, Repr

/-- One recorded trade dict.  `note` is `true` when the trade carries the
stop-loss marker note. -/
structure Trade where
  timestamp : Nat
  action : TAction
  price : ℚ
  quantity : Int
  amount : ℚ
  pnl : Option ℚ
  note : Bool
deriving DecidableEq, Repr

/-- One equity-curve point. -/
structure EPoint where
  timestamp : Nat
  equity : ℚ
  returns : ℚ
  price : ℚ
deriving DecidableEq, Repr

/-- Cash-ledger engine configuration: `RealBacktestEngine.__init__` plus the
market model's minimum lot (`StockMarketModel.min_lot() = 100`,
`FuturesMarketModel.min_lot() = 1`). -/
structure LConfig where
  initialCapital : ℚ
  commissionRate : ℚ
  minLot : Int
deriving DecidableEq, Repr

/-- Position-management modes; any other string falls back to full. -/
inductive PosMgmt
  | full | half | third | quarter | fallback
deriving DecidableEq, Repr

/-- The capital fraction of `calculate_position_size`. -/
def availableRatio : PosMgmt → ℚ
  | .full => 1
  | .half => 1/2
  | .third => 1/3
  | .quarter => 1/4
  | .fallback => 1

/-- Python `int(q)` on an exact rational: truncation toward zero. -/
def truncInt (q : ℚ) : Int := q.num / (q.den : Int)

/-- `RealBacktestEngine.calculate_position_size`: scale capital by the
management mode, divide by the price (guarded by `1e-9`), floor to a
multiple of the minimum lot. -/
def calculatePositionSize (cfg : LConfig) (currentCapital currentPrice : ℚ)
    (pm : PosMgmt) : Int :=
  let availableCapital := currentCapital * availableRatio pm
  let maxUnits := truncInt (availableCapital / max currentPrice (1/1000000000))
  let sharesToBuy := (Int.fdiv maxUnits cfg.minLot) * cfg.minLot
  max 0 sharesToBuy

/-- Mutable state of one cash-ledger strategy loop. -/
structure LState where
  capital : ℚ
  position : Int
  trades : List Trade
  equityCurve : List EPoint
deriving DecidableEq, Repr

/-- Fresh ledger state at the start of `_execute_backtest`. -/
def initLState (cfg : LConfig) : LState :=
  { capital := cfg.initialCapital, position := 0, trades := [], equityCurve := [] }

/-- Record-construction helper for trade dicts. -/
def mkTrade (ts : Nat) (a : TAction) (price : ℚ) (qty : Int) (amount : ℚ)
    (pnl : Option ℚ) (note : Bool) : Trade :=
  { timestamp := ts, action := a, price := price, quantity := qty,
    amount := amount, pnl := pnl, note := note }

/-- `sum([t["amount"] for t in trades if t["action"] == "buy"])`. -/
def buyCostSum (trades : List Trade) : ℚ :=
  ((trades.filter (fun t => t.action == TAction.buy)).map Trade.amount).sum

/-- The accepted-buy mutation (the innermost body of the buy branch shared
by the strategy loops): deduct cost plus commission, add the shares, append
the buy trade. -/
def execBuyQty (cfg : LConfig) (s : LState) (ts : Nat) (price : ℚ)
    (shares : Int) : LState :=
  let cost := (shares : ℚ) * price
  let commission := cost * cfg.commissionRate
  let totalCost := cost + commission
  { s with capital := s.capital - totalCost,
           position := s.position + shares,
           trades := s.trades ++ [mkTrade ts TAction.buy (round2 price) shares
             (round2 totalCost) none false] }

/-- The two silent rejection guards of the buy branch (below minimum lot,
or cost plus commission exceeding cash). -/
def buyAccepted (cfg : LConfig) (pm : PosMgmt) (currentCapital price : ℚ) : Bool :=
  let shares := calculatePositionSize cfg currentCapital price pm
  let totalCost := (shares : ℚ) * price + (shares : ℚ) * price * cfg.commissionRate
  cfg.minLot ≤ shares && totalCost ≤ currentCapital

/-- The full buy branch of the strategy loops: size the order via
`calculate_position_size`, silently skip it when below the lot size or when
cost plus commission exceeds cash, otherwise execute (the cost recomputation
inside `execBuyQty` coincides with the guard's). -/
def buyAttempt (cfg : LConfig) (pm : PosMgmt) (s : LState) (ts : Nat)
    (price : ℚ) : LState :=
  let shares := calculatePositionSize cfg s.capital price pm
  if cfg.minLot ≤ shares then
    let cost := (shares : ℚ) * price
    let commission := cost * cfg.commissionRate
    let totalCost := cost + commission
    if totalCost ≤ s.capital then execBuyQty cfg s ts price shares else s
  else s

/-- The signal-sell branch shared by the strategy loops: liquidate the whole
position, realize pnl against the sum of all recorded buy amounts. -/
def execSellAll (cfg : LConfig) (s : LState) (ts : Nat) (price : ℚ) : LState :=
  let revenue := (s.position : ℚ) * price
  let commission := revenue * cfg.commissionRate
  let netRevenue := revenue - commission
  let buyCost := buyCostSum s.trades
  let pnl := netRevenue - buyCost
  { s with capital := s.capital + netRevenue,
           position := 0,
           trades := s.trades ++ [mkTrade ts TAction.sell (round2 price)
             s.position (round2 netRevenue) (some (round2 pnl)) false] }

/-- Stop-loss configuration from `strategy.meta.stop_loss`. -/
inductive SLType
  | pct | amount
deriving DecidableEq, Repr

/-- Stop-loss action. -/
inductive SLAction
  | sellAll | reduceHalf
deriving DecidableEq, Repr

/-- Parsed `stop_loss_cfg` triple. -/
structure StopCfg where
  sltype : SLType
  value : ℚ
  action : SLAction
deriving DecidableEq, Repr

/-- The per-bar stop-loss check of `_run_ma_strategy` / `_run_rsi_strategy`
(loss measured against initial capital). -/
def stopLossCheck (cfg : LConfig) (stop : Option StopCfg) (s : LState)
    (ts : Nat) (price : ℚ) : LState :=
  if 0 < s.position then
    match stop with
    | none => s
    | some sl =>
      let currentEquity := s.capital + (s.position : ℚ) * price
      let maxLoss : ℚ :=
        if sl.sltype = SLType.pct ∧ 0 < sl.value then
          cfg.initialCapital * (sl.value / 100)
        else if sl.sltype = SLType.amount ∧ 0 < sl.value then sl.value
        else 0
      if 0 < maxLoss ∧ maxLoss ≤ cfg.initialCapital - currentEquity then
        let qty :=
          if sl.action = SLAction.reduceHalf ∧ 0 < s.position then
            max cfg.minLot ((Int.fdiv (Int.fdiv s.position 2) cfg.minLot) * cfg.minLot)
          else s.position
        let revenue := (qty : ℚ) * price
        let commission := revenue * cfg.commissionRate
        let netRevenue := revenue - commission
        let buyCost := buyCostSum s.trades *
          (if 0 < s.position then (qty : ℚ) / (s.position : ℚ) else 1)
        let pnl := netRevenue - buyCost
        { s with capital := s.capital + netRevenue,
                 position := s.position - qty,
                 trades := s.trades ++ [mkTrade ts TAction.sell (round2 price)
                   qty (round2 netRevenue) (some (round2 pnl)) true] }
      else s
  else s

/-- The sampled equity-curve record (`if i % 10 == 0`), with the return
taken relative to the previous recorded point. -/
def recordEquity10 (s : LState) (i : Nat) (ts : Nat) (price : ℚ) : LState :=
  if i % 10 = 0 then
    let currentEquity := s.capital + (s.position : ℚ) * price
    let dailyReturn : ℚ :=
      match s.equityCurve.getLast? with
      | some prev => (currentEquity - prev.equity) / prev.equity
      | none => 0
    { s with equityCurve := s.equityCurve ++
        [⟨ts, round2 currentEquity, round4 dailyReturn, round2 price⟩] }
  else s

/-- `series.rolling(window=w).mean()` at index `i`: the mean of entries
`i+1-w .. i`, `none` (NaN) while fewer than `w` entries are available or
out of range. -/
def maAt (closes : List ℚ) (w : Nat) (i : Nat) : Option ℚ :=
  if w ≤ i + 1 ∧ i < closes.length ∧ 0 < w then
    some ((((closes.drop (i + 1 - w)).take w).sum) / (w : ℚ))
  else none

/-- `_run_ma_strategy`'s golden cross at index `i`:
`ma_short > ma_long` now and `prev_ma_short <= prev_ma_long` at `i-1`
(NaN comparisons are false). -/
def goldenCrossB (closes : List ℚ) (period : Nat) (i : Nat) : Bool :=
  match maAt closes (min period 10) i, maAt closes period i,
      maAt closes (min period 10) (i - 1), maAt closes period (i - 1) with
  | some ms, some ml, some ps, some pl => decide (ml < ms) && decide (ps ≤ pl)
  | _, _, _, _ => false

/-- `_run_ma_strategy`'s death cross at index `i` (the mirror). -/
def deathCrossB (closes : List ℚ) (period : Nat) (i : Nat) : Bool :=
  match maAt closes (min period 10) i, maAt closes period i,
      maAt closes (min period 10) (i - 1), maAt closes period (i - 1) with
  | some ms, some ml, some ps, some pl => decide (ms < ml) && decide (pl ≤ ps)
  | _, _, _, _ => false

/-- One iteration of `_run_ma_strategy`'s bar loop at index `i`: skip on NaN
averages; for `i > long_period` buy on a golden cross while flat (silently
rejecting undersized/unaffordable orders) or sell everything on a death
cross while long; then the stop-loss check; then the sampled equity
record. -/
def maBarStep (cfg : LConfig) (pm : PosMgmt) (stop : Option StopCfg)
    (data : List Bar) (period : Nat) (i : Nat) (s : LState) : LState :=
  let row := data.getD i default
  let currentPrice := row.close
  let ts := row.timestamp
  let closes := data.map Bar.close
  match maAt closes (min period 10) i, maAt closes period i with
  | some _, some _ =>
    let s1 :=
      if period < i then
        if goldenCrossB closes period i ∧ s.position = 0 then
          buyAttempt cfg pm s ts currentPrice
        else if deathCrossB closes period i ∧ 0 < s.position then
          execSellAll cfg s ts currentPrice
        else s
      else s
    let s2 := stopLossCheck cfg stop s1 ts currentPrice
    recordEquity10 s2 i ts currentPrice
  | _, _ => s

/-- The whole `_run_ma_strategy` bar loop (`for i in range(long_period,
len(data))`) from a fresh ledger state. -/
def runMa (cfg : LConfig) (pm : PosMgmt) (stop : Option StopCfg)
    (data : List Bar) (period : Nat) : LState :=
  (List.range' period (data.length - period)).foldl
    (fun s i => maBarStep cfg pm stop data period i s) (initLState cfg)

/-- One iteration of `_run_simple_ma_strategy`'s bar loop at index `i` (the
zero-condition-node default): fixed MA(5)/MA(20); buy while flat whenever
`ma_short > ma_long` (a level comparison, no previous-bar check), sell
everything while long whenever `ma_short < ma_long`; sampled equity
record; no stop-loss. -/
def simpleMaBarStep (cfg : LConfig) (pm : PosMgmt) (data : List Bar)
    (i : Nat) (s : LState) : LState :=
  let row := data.getD i default
  let currentPrice := row.close
  let ts := row.timestamp
  let closes := data.map Bar.close
  match maAt closes 5 i, maAt closes 20 i with
  | some ms, some ml =>
    let s1 :=
      if ml < ms ∧ s.position = 0 then buyAttempt cfg pm s ts currentPrice
      else if ms < ml ∧ 0 < s.position then execSellAll cfg s ts currentPrice
      else s
    recordEquity10 s1 i ts currentPrice
  | _, _ => s

/-- The whole `_run_simple_ma_strategy` bar loop
(`for i in range(ma_long, len(data))` with `ma_long = 20`). -/
def runSimpleMa (cfg : LConfig) (pm : PosMgmt) (data : List Bar) : LState :=
  (List.range' 20 (data.length - 20)).foldl
    (fun s i => simpleMaBarStep cfg pm data i s) (initLState cfg)

/-- Number of recorded buy trades. -/
def countBuys (trades : List Trade) : Nat :=
  (trades.filter (fun t => t.action == TAction.buy)).length

/-- Number of recorded signal sells (sell trades without the stop-loss
note). -/
def countSignalSells (trades : List Trade) : Nat :=
  (trades.filter (fun t => t.action == TAction.sell && !t.note)).length

/-- The operator strings dispatched by the RSI strategies; `wild` stands
for any other string (every comparison chain then falls through). -/
inductive Op
  | lt | gt | le | ge | below | above | wild
deriving DecidableEq, Repr

/-- Positive part, `delta.where(delta > 0, 0)`. -/
def posPart (x : ℚ) : ℚ := if 0 < x then x else 0

/-- Negative part, `-delta.where(delta < 0, 0)`. -/
def negPart (x : ℚ) : ℚ := if x < 0 then -x else 0

/-- `_calculate_rsi` at index `i`: rolling means of the positive and
negative parts of the one-step close differences, `rs = gain/loss`,
`rsi = 100 - 100/(1+rs)`.  Under float semantics `loss = 0, gain > 0`
gives `rs = inf`, hence `rsi = 100`; `0/0` gives NaN (`none`); the first
valid index is `period` (the diff at index 0 is NaN). -/
def rsiAt (closes : List ℚ) (period : Nat) (i : Nat) : Option ℚ :=
  if period ≤ i ∧ i < closes.length ∧ 0 < period then
    let deltas := (List.range' (i + 1 - period) period).map
      (fun j => closes.getD j 0 - closes.getD (j - 1) 0)
    let gain := (deltas.map posPart).sum / (period : ℚ)
    let loss := (deltas.map negPart).sum / (period : ℚ)
    if loss = 0 then (if gain = 0 then none else some 100)
    else some (100 - 100 / (1 + gain / loss))
  else none

/-- The entry condition of `_run_rsi_strategy`'s buy branch (evaluated while
flat), exactly the operator chain of its `cond_buy`. -/
def rsiBuyCond (op : Op) (threshold v : ℚ) : Bool :=
  ((op == Op.lt || op == Op.below) && decide (v < threshold)) ||
  ((op == Op.gt || op == Op.above) && decide (threshold < v)) ||
  (op == Op.le && decide (v ≤ threshold)) ||
  (op == Op.ge && decide (threshold ≤ v))

/-- The exit condition of `_run_rsi_strategy`'s sell branch (evaluated while
long), exactly the operator chain of its `elif`. -/
def rsiSellCond (op : Op) (threshold v : ℚ) : Bool :=
  ((op == Op.gt || op == Op.above) && decide (threshold < v)) ||
  ((op == Op.lt || op == Op.below) && decide (v < threshold)) ||
  (op == Op.ge && decide (threshold ≤ v)) ||
  (op == Op.le && decide (v ≤ threshold))

/-- The RSI buy signal of `FuturesBacktestEngine.run` (operators other than
`<`/`below`/`>`/`above` never set it). -/
def futBuySignal (op : Op) (threshold v : ℚ) : Bool :=
  match op with
  | Op.lt | Op.below => decide (v < threshold)
  | Op.gt | Op.above => decide (threshold < v)
  | _ => false

/-- The RSI close signal of `FuturesBacktestEngine.run` while long: the
reverse comparison (`>=` for `<`/`below`, otherwise `<=`). -/
def futSellSignal (op : Op) (threshold v : ℚ) : Bool :=
  if op == Op.lt || op == Op.below then decide (threshold ≤ v)
  else decide (v ≤ threshold)

/-- `_run_rsi_strategy` loop state: the ledger plus the debug counters of
its `stats` dict. -/
structure RState where
  ledger : LState
  condTrue : Nat
  buyAttempts : Nat
  sellAttempts : Nat
  buys : Nat
  sells : Nat
  rejMinLot : Nat
  rejInsufficientCash : Nat
deriving DecidableEq, Repr

/-- Fresh `_run_rsi_strategy` state. -/
def initRState (cfg : LConfig) : RState :=
  { ledger := initLState cfg, condTrue := 0, buyAttempts := 0,
    sellAttempts := 0, buys := 0, sells := 0, rejMinLot := 0,
    rejInsufficientCash := 0 }

/-- One iteration of `_run_rsi_strategy`'s bar loop at index `i`: skip on
NaN RSI; while flat, the parameterised entry condition sizes a buy and
silently counts a rejection when undersized or unaffordable; otherwise
while long the sell chain liquidates; then stop-loss, then the sampled
equity record. -/
def rsiBarStep (cfg : LConfig) (pm : PosMgmt) (stop : Option StopCfg)
    (op : Op) (threshold : ℚ) (period : Nat) (data : List Bar) (i : Nat)
    (st : RState) : RState :=
  let row := data.getD i default
  let currentPrice := row.close
  let ts := row.timestamp
  let closes := data.map Bar.close
  match rsiAt closes period i with
  | none => st
  | some v =>
    let st1 :=
      if st.ledger.position = 0 ∧ rsiBuyCond op threshold v then
        let st0 := { st with condTrue := st.condTrue + 1,
                             buyAttempts := st.buyAttempts + 1 }
        let shares := calculatePositionSize cfg st.ledger.capital currentPrice pm
        if cfg.minLot ≤ shares then
          let cost := (shares : ℚ) * currentPrice
          let commission := cost * cfg.commissionRate
          let totalCost := cost + commission
          if totalCost ≤ st.ledger.capital then
            { st0 with ledger := execBuyQty cfg st.ledger ts currentPrice shares,
                       buys := st0.buys + 1 }
          else { st0 with rejInsufficientCash := st0.rejInsufficientCash + 1 }
        else { st0 with rejMinLot := st0.rejMinLot + 1 }
      else if 0 < st.ledger.position ∧ rsiSellCond op threshold v then
        { st with ledger := execSellAll cfg st.ledger ts currentPrice,
                  sellAttempts := st.sellAttempts + 1, sells := st.sells + 1 }
      else st
    let st2 := { st1 with ledger := stopLossCheck cfg stop st1.ledger ts currentPrice }
    { st2 with ledger := recordEquity10 st2.ledger i ts currentPrice }

/-- The whole `_run_rsi_strategy` bar loop
(`for i in range(period, len(data))`). -/
def runRsi (cfg : LConfig) (pm : PosMgmt) (stop : Option StopCfg) (op : Op)
    (threshold : ℚ) (period : Nat) (data : List Bar) : RState :=
  (List.range' period (data.length - period)).foldl
    (fun st i => rsiBarStep cfg pm stop op threshold period data i st)
    (initRState cfg)

theorem countBuys_append (l : List Trade) (t : Trade) :
    countBuys (l ++ [t])
      = countBuys l + (if t.action == TAction.buy then 1 else 0) := by
  by_cases h : t.action == TAction.buy <;>
    simp [countBuys, List.filter_append, h]

theorem countSignalSells_append (l : List Trade) (t : Trade) :
    countSignalSells (l ++ [t])
      = countSignalSells l
        + (if (t.action == TAction.sell && !t.note) = true then 1 else 0) := by
  by_cases h : (t.action == TAction.sell && !t.note) = true <;>
    simp [countSignalSells, List.filter_append, h]

theorem buyAttempt_rejected {cfg : LConfig} {pm : PosMgmt} {s : LState}
    {ts : Nat} {price : ℚ}
    (h : buyAccepted cfg pm s.capital price = false) :
    buyAttempt cfg pm s ts price = s := by
  rw [buyAccepted] at h
  simp only [Bool.and_eq_false_iff, decide_eq_false_iff_not] at h
  simp only [buyAttempt]
  split_ifs with h1 h2
  · rcases h with h | h
    · exact absurd h1 h
    · exact absurd h2 h
  · rfl
  · rfl

theorem buyAttempt_accepted {cfg : LConfig} {pm : PosMgmt} {s : LState}
    {ts : Nat} {price : ℚ}
    (h : buyAccepted cfg pm s.capital price = true) :
    buyAttempt cfg pm s ts price
      = execBuyQty cfg s ts price (calculatePositionSize cfg s.capital price pm) := by
  rw [buyAccepted, Bool.and_eq_true] at h
  simp only [buyAttempt]
  rw [if_pos (of_decide_eq_true h.1), if_pos (of_decide_eq_true h.2)]

theorem countBuys_buyAttempt (cfg : LConfig) (pm : PosMgmt) (s : LState)
    (ts : Nat) (price : ℚ) :
    countBuys (buyAttempt cfg pm s ts price).trades
      = countBuys s.trades
        + (if buyAccepted cfg pm s.capital price = true then 1 else 0) := by
  by_cases h : buyAccepted cfg pm s.capital price = true
  · rw [buyAttempt_accepted h, if_pos h]
    simp [execBuyQty, countBuys_append, mkTrade]
  · rw [buyAttempt_rejected (Bool.eq_false_iff.mpr h), if_neg h]
    rfl

theorem countSignalSells_buyAttempt (cfg : LConfig) (pm : PosMgmt)
    (s : LState) (ts : Nat) (price : ℚ) :
    countSignalSells (buyAttempt cfg pm s ts price).trades
      = countSignalSells s.trades := by
  by_cases h : buyAccepted cfg pm s.capital price = true
  · rw [buyAttempt_accepted h]
    simp [execBuyQty, countSignalSells_append, mkTrade]
  · rw [buyAttempt_rejected (Bool.eq_false_iff.mpr h)]

theorem countBuys_execSellAll (cfg : LConfig) (s : LState) (ts : Nat)
    (price : ℚ) :
    countBuys (execSellAll cfg s ts price).trades = countBuys s.trades := by
  simp [execSellAll, countBuys_append, mkTrade]

theorem countSignalSells_execSellAll (cfg : LConfig) (s : LState) (ts : Nat)
    (price : ℚ) :
    countSignalSells (execSellAll cfg s ts price).trades
      = countSignalSells s.trades + 1 := by
  simp [execSellAll, countSignalSells_append, mkTrade]

theorem stopLossCheck_flat {cfg : LConfig} {stop : Option StopCfg}
    {s : LState} {ts : Nat} {price : ℚ} (h : ¬ 0 < s.position) :
    stopLossCheck cfg stop s ts price = s := by
  rcases stop with - | sl <;> simp [stopLossCheck, h]

theorem countBuys_stopLossCheck (cfg : LConfig) (stop : Option StopCfg)
    (s : LState) (ts : Nat) (price : ℚ) :
    countBuys (stopLossCheck cfg stop s ts price).trades
      = countBuys s.trades := by
  rcases stop with - | sl
  · simp [stopLossCheck]
  · simp only [stopLossCheck]
    split_ifs <;> simp [countBuys_append, mkTrade]

theorem countSignalSells_stopLossCheck (cfg : LConfig) (stop : Option StopCfg)
    (s : LState) (ts : Nat) (price : ℚ) :
    countSignalSells (stopLossCheck cfg stop s ts price).trades
      = countSignalSells s.trades := by
  rcases stop with - | sl
  · simp [stopLossCheck]
  · simp only [stopLossCheck]
    split_ifs <;> simp [countSignalSells_append, mkTrade]

theorem recordEquity10_fields (s : LState) (i : Nat) (ts : Nat) (price : ℚ) :
    (recordEquity10 s i ts price).capital = s.capital ∧
    (recordEquity10 s i ts price).position = s.position ∧
    (recordEquity10 s i ts price).trades = s.trades := by
  rw [recordEquity10]
  split_ifs <;> exact ⟨rfl, rfl, rfl⟩

theorem stopLossCheck_flat_of_zero {cfg : LConfig} {stop : Option StopCfg}
    {s : LState} {ts : Nat} {price : ℚ} (h : s.position = 0) :
    stopLossCheck cfg stop s ts price = s :=
  stopLossCheck_flat (by rw [h]; exact lt_irrefl 0)

theorem maBarStep_countBuys (cfg : LConfig) (pm : PosMgmt)
    (stop : Option StopCfg) (data : List Bar) (period i : Nat) (s : LState)
    (hi : period < i) :
    countBuys (maBarStep cfg pm stop data period i s).trades
      = countBuys s.trades
        + (if goldenCrossB (data.map Bar.close) period i = true
              ∧ s.position = 0
              ∧ buyAccepted cfg pm s.capital (data.getD i default).close = true
           then 1 else 0) := by
  rcases h1 : maAt (data.map Bar.close) (min period 10) i with - | ms
  · have hg : goldenCrossB (data.map Bar.close) period i = false := by
      simp [goldenCrossB, h1]
    simp [maBarStep, h1, hg]
  · rcases h2 : maAt (data.map Bar.close) period i with - | ml
    · have hg : goldenCrossB (data.map Bar.close) period i = false := by
        simp [goldenCrossB, h1, h2]
      simp [maBarStep, h1, h2, hg]
    · simp only [maBarStep, h1, h2]
      rw [if_pos hi]
      by_cases hb : goldenCrossB (data.map Bar.close) period i = true
          ∧ s.position = 0
      · rw [if_pos hb, (recordEquity10_fields _ _ _ _).2.2,
          countBuys_stopLossCheck, countBuys_buyAttempt]
        by_cases ha : buyAccepted cfg pm s.capital
            (data.getD i default).close = true
        · rw [if_pos ha, if_pos ⟨hb.1, hb.2, ha⟩]
        · rw [if_neg ha, if_neg (fun hc => ha hc.2.2)]
      · rw [if_neg hb]
        by_cases hd : deathCrossB (data.map Bar.close) period i = true
            ∧ 0 < s.position
        · rw [if_pos hd, (recordEquity10_fields _ _ _ _).2.2,
            countBuys_stopLossCheck, countBuys_execSellAll,
            if_neg (fun hc => hb ⟨hc.1, hc.2.1⟩)]
          rfl
        · rw [if_neg hd, (recordEquity10_fields _ _ _ _).2.2,
            countBuys_stopLossCheck,
            if_neg (fun hc => hb ⟨hc.1, hc.2.1⟩)]
          rfl

theorem maBarStep_countSells (cfg : LConfig) (pm : PosMgmt)
    (stop : Option StopCfg) (data : List Bar) (period i : Nat) (s : LState)
    (hi : period < i) :
    countSignalSells (maBarStep cfg pm stop data period i s).trades
      = countSignalSells s.trades
        + (if deathCrossB (data.map Bar.close) period i = true
              ∧ 0 < s.position
           then 1 else 0) := by
  rcases h1 : maAt (data.map Bar.close) (min period 10) i with - | ms
  · have hg : deathCrossB (data.map Bar.close) period i = false := by
      simp [deathCrossB, h1]
    simp [maBarStep, h1, hg]
  · rcases h2 : maAt (data.map Bar.close) period i with - | ml
    · have hg : deathCrossB (data.map Bar.close) period i = false := by
        simp [deathCrossB, h1, h2]
      simp [maBarStep, h1, h2, hg]
    · simp only [maBarStep, h1, h2]
      rw [if_pos hi]
      by_cases hb : goldenCrossB (data.map Bar.close) period i = true
          ∧ s.position = 0
      · rw [if_pos hb, (recordEquity10_fields _ _ _ _).2.2,
          countSignalSells_stopLossCheck, countSignalSells_buyAttempt,
          if_neg (fun hc => absurd hb.2 (by rw [hb.2] at hc; exact absurd hc.2 (lt_irrefl 0)))]
        rfl
      · rw [if_neg hb]
        by_cases hd : deathCrossB (data.map Bar.close) period i = true
            ∧ 0 < s.position
        · rw [if_pos hd, (recordEquity10_fields _ _ _ _).2.2,
            countSignalSells_stopLossCheck, countSignalSells_execSellAll,
            if_pos hd]
        · rw [if_neg hd, (recordEquity10_fields _ _ _ _).2.2,
            countSignalSells_stopLossCheck, if_neg hd]
          rfl

/-- Synthetic bar with all OHLC fields equal to `c`, timestamped by its
index. -/
def mkBar (i : Nat) (c : ℚ) : Bar :=
  { timestamp := i, open_ := c, high := c, low := c, close := c,
    volume := 1000, amount := 0 }

/-- Engineered 30-bar series whose MA(min(20,10))/MA(20) pair crosses
exactly once, at index 24: flat at 100 through index 23, then rising. -/
def C3series : List Bar :=
  (List.range 30).map
    (fun i => mkBar i (if i < 24 then 100 else 100 + ((i : ℚ) - 23)))

/-- Strictly increasing 30-bar series (short MA above long MA at every
index from the start of the loop). -/
def C3inc : List Bar :=
  (List.range 30).map (fun i => mkBar i (100 + (i : ℚ)))

/-- Stock-market configuration for the C3 runs. -/
def C3cfg : LConfig :=
  { initialCapital := 100000, commissionRate := 1/1000, minLot := 100 }

set_option maxRecDepth 20000 in
unseal Rat.add Rat.mul Rat.sub Rat.inv in
/-- C3 (amended): in `_run_ma_strategy` (the condition-node MA-cross path),
for loop indices `i > period` a buy is recorded at bar `i` iff the golden
cross holds at `i` (short MA above long MA at `i` and not above at `i-1`),
the position is flat, and the sized order passes the lot/cash guards; the
death-cross signal sell is the mirror (no guard).  On the engineered series
with its single golden cross at index 24, both `_run_ma_strategy` and the
zero-condition-node default delegate `_run_simple_ma_strategy` emit exactly
one buy, at index 24.  (The delegate itself buys on a level comparison, not
a crossing — see the counterexample.) -/
theorem C3_ma_cross_fires_once :
    (∀ (cfg : LConfig) (pm : PosMgmt) (stop : Option StopCfg)
        (data : List Bar) (period i : Nat) (s : LState), period < i →
      (countBuys (maBarStep cfg pm stop data period i s).trades
          = countBuys s.trades + 1 ↔
        (goldenCrossB (data.map Bar.close) period i = true ∧ s.position = 0
          ∧ buyAccepted cfg pm s.capital (data.getD i default).close = true))) ∧
    (∀ (cfg : LConfig) (pm : PosMgmt) (stop : Option StopCfg)
        (data : List Bar) (period i : Nat) (s : LState), period < i →
      (countSignalSells (maBarStep cfg pm stop data period i s).trades
          = countSignalSells s.trades + 1 ↔
        (deathCrossB (data.map Bar.close) period i = true
          ∧ 0 < s.position))) ∧
    (runMa C3cfg PosMgmt.full none C3series 20).trades
      = [mkTrade 24 TAction.buy 101 900 (909909/10) none false] ∧
    (runSimpleMa C3cfg PosMgmt.full C3series).trades
      = [mkTrade 24 TAction.buy 101 900 (909909/10) none false] ∧
    goldenCrossB (C3series.map Bar.close) 20 24 = true ∧
    ((List.range' 20 10).all
      (fun j => j == 24 || !goldenCrossB (C3series.map Bar.close) 20 j))
        = true := by
  refine ⟨?_, ?_, by decide, by decide, by decide, by decide⟩
  · intro cfg pm stop data period i s hi
    rw [maBarStep_countBuys cfg pm stop data period i s hi]
    by_cases hC : goldenCrossB (data.map Bar.close) period i = true
        ∧ s.position = 0
        ∧ buyAccepted cfg pm s.capital (data.getD i default).close = true
    · simp [hC]
    · simp only [if_neg hC, Nat.add_zero]
      constructor
      · intro h
        exact absurd h (by omega)
      · intro h
        exact absurd h hC
  · intro cfg pm stop data period i s hi
    rw [maBarStep_countSells cfg pm stop data period i s hi]
    by_cases hC : deathCrossB (data.map Bar.close) period i = true
        ∧ 0 < s.position
    · simp [hC]
    · simp only [if_neg hC, Nat.add_zero]
      constructor
      · intro h
        exact absurd h (by omega)
      · intro h
        exact absurd h hC

set_option maxRecDepth 20000 in
unseal Rat.add Rat.mul Rat.sub Rat.inv in
/-- C3 counterexample: on a strictly increasing series the zero-condition
default delegate `_run_simple_ma_strategy` records its (single) buy at the
first loop bar, index 20, even though no golden cross occurs there — the
short MA was already above the long MA at index 19.  The delegate buys on
the current ordering of the averages, not on a crossing, so the claimed
iff does not extend to it. -/
theorem C3_counterexample :
    (runSimpleMa C3cfg PosMgmt.full C3inc).trades.map
        (fun t => (t.timestamp, t.action)) = [(20, TAction.buy)] ∧
    goldenCrossB (C3inc.map Bar.close) 20 20 = false := by
  refine ⟨by decide, by decide⟩

unseal Rat.add Rat.mul Rat.sub Rat.inv in
theorem C3_witness :
    countBuys (maBarStep C3cfg PosMgmt.full none C3series 20 24
          (initLState C3cfg)).trades
        = countBuys (initLState C3cfg).trades + 1 ↔
      (goldenCrossB (C3series.map Bar.close) 20 24 = true
        ∧ (initLState C3cfg).position = 0
        ∧ buyAccepted C3cfg PosMgmt.full (initLState C3cfg).capital
            (C3series.getD 24 default).close = true) :=
  C3_ma_cross_fires_once.1 C3cfg PosMgmt.full none C3series 20 24
    (initLState C3cfg) (by decide)

/-- Configuration for the C4 counterexample: commission rate `1e-5`. -/
def C4cfg : LConfig :=
  { initialCapital := 1000, commissionRate := 1/100000, minLot := 100 }

/-- C4 (amended): a buy of quantity `q` at price `p` followed immediately by
a sell of the whole position at the same price records, on the sell trade,
`realized_pnl = round2(q·p·(1-r) - round2(q·p·(1+r)))`; this equals the
claimed `-2·r·q·p` exactly whenever the buy amount `q·p·(1+r)` and the
value `2·r·q·p` are representable at two decimal places (the recorded
amounts and pnl pass through Python's `round(x, 2)`). -/
theorem C4_roundtrip_pnl (cfg : LConfig) (ts1 ts2 : Nat) (p : ℚ) (q : Int)
    (hq : 0 < q) (hp : 0 < p) (hr : 0 ≤ cfg.commissionRate)
    (h1 : round2 ((q : ℚ) * p * (1 + cfg.commissionRate))
            = (q : ℚ) * p * (1 + cfg.commissionRate))
    (h2 : round2 (-(2 * cfg.commissionRate * (q : ℚ) * p))
            = -(2 * cfg.commissionRate * (q : ℚ) * p)) :
    (execSellAll cfg (execBuyQty cfg (initLState cfg) ts1 p q) ts2 p).trades.map
        Trade.pnl
      = [none, some (-(2 * cfg.commissionRate * (q : ℚ) * p))] := by
  simp only [execSellAll, execBuyQty, initLState, buyCostSum, mkTrade,
    List.nil_append, List.filter_cons, List.filter_nil, List.map_cons,
    List.map_nil, List.sum_cons, List.sum_nil, List.map_append,
    List.cons_append]
  norm_num
  have e1 : (q : ℚ) * p + (q : ℚ) * p * cfg.commissionRate
      = (q : ℚ) * p * (1 + cfg.commissionRate) := by ring
  rw [e1, h1]
  have e2 : (q : ℚ) * p - (q : ℚ) * p * cfg.commissionRate
      - (q : ℚ) * p * (1 + cfg.commissionRate)
      = -(2 * cfg.commissionRate * (q : ℚ) * p) := by ring
  rw [e2, h2]

unseal Rat.add Rat.mul Rat.sub Rat.inv in
/-- C4 counterexample: with `q = 100`, `p = 1`, `r = 1e-5` the recorded buy
amount `100.001` rounds to `100.00` and the sell's pnl `-0.001` rounds to
`0.00`, so the recorded realized pnl is `0`, not the claimed
`-2·r·q·p = -0.002`. -/
theorem C4_counterexample :
    (execSellAll C4cfg (execBuyQty C4cfg (initLState C4cfg) 0 1 100) 1
        1).trades.map Trade.pnl = [none, some 0] ∧
    -(2 * (1/100000 : ℚ) * 100 * 1) ≠ 0 := by
  refine ⟨by decide, by decide⟩

/-- Configuration for the C4 witness: commission rate `1e-3`. -/
def C4wcfg : LConfig :=
  { initialCapital := 100000, commissionRate := 1/1000, minLot := 100 }

unseal Rat.add Rat.mul Rat.sub Rat.inv in
theorem C4_witness :
    (execSellAll C4wcfg (execBuyQty C4wcfg (initLState C4wcfg) 0 10 100) 1
        10).trades.map Trade.pnl
      = [none, some (-(2 * C4wcfg.commissionRate * ((100 : Int) : ℚ) * 10))] :=
  C4_roundtrip_pnl C4wcfg 0 1 10 100 (by decide) (by decide) (by decide)
    (by decide) (by decide)

/-- C5 (amended): in `_run_rsi_strategy` the exit condition evaluated while
long is the *same* operator comparison as the entry condition evaluated
while flat — not its negation — for every operator.  Only the futures
engine flips polarity, and only for `<`/`below` and `>`/`above`; for `<=`
and `>=` its entry signal never fires at all. -/
theorem C5_rsi_exit_polarity :
    (∀ (op : Op) (th v : ℚ), rsiSellCond op th v = rsiBuyCond op th v) ∧
    (∀ (th v : ℚ), futSellSignal Op.lt th v = !futBuySignal Op.lt th v) ∧
    (∀ (th v : ℚ), futSellSignal Op.below th v = !futBuySignal Op.below th v) ∧
    (∀ (th v : ℚ), futSellSignal Op.gt th v = !futBuySignal Op.gt th v) ∧
    (∀ (th v : ℚ), futSellSignal Op.above th v = !futBuySignal Op.above th v) ∧
    (∀ (th v : ℚ),
      futBuySignal Op.le th v = false ∧ futBuySignal Op.ge th v = false) := by
  refine ⟨?_, ?_, ?_, ?_, ?_, ?_⟩
  · intro op th v
    cases op <;> simp only [rsiBuyCond, rsiSellCond] <;>
      cases h1 : decide (v < th) <;> cases h2 : decide (th < v) <;>
      cases h3 : decide (v ≤ th) <;> cases h4 : decide (th ≤ v) <;> decide
  · intro th v
    simp only [futSellSignal, futBuySignal]
    rw [if_pos (by decide), ← decide_not]
    exact decide_eq_decide.mpr not_lt.symm
  · intro th v
    simp only [futSellSignal, futBuySignal]
    rw [if_pos (by decide), ← decide_not]
    exact decide_eq_decide.mpr not_lt.symm
  · intro th v
    simp only [futSellSignal, futBuySignal]
    rw [if_neg (by decide), ← decide_not]
    exact decide_eq_decide.mpr not_lt.symm
  · intro th v
    simp only [futSellSignal, futBuySignal]
    rw [if_neg (by decide), ← decide_not]
    exact decide_eq_decide.mpr not_lt.symm
  · intro th v
    exact ⟨rfl, rfl⟩

/-- C5 counterexample: with operator `<` and threshold 30, at RSI 25 both
the entry condition and the exit condition of `_run_rsi_strategy` are true,
so the exit is not the polarity-flipped (negated) entry (which would be
`RSI >= 30`, false here). -/
theorem C5_counterexample :
    rsiSellCond Op.lt 30 25 = true ∧ rsiBuyCond Op.lt 30 25 = true ∧
    rsiSellCond Op.lt 30 25 ≠ (!rsiBuyCond Op.lt 30 25) := by
  refine ⟨by decide, by decide, by decide⟩

/-- C8: while flat, a bar whose sized buy order fails the lot-size or cash
guard leaves cash, position and the trade list unchanged in
`_run_ma_strategy`, and likewise (up to the debug rejection counters) in
`_run_rsi_strategy`; the loops are total, so the remaining bars proceed
from the unchanged state. -/
theorem C8_rejected_buy_noop :
    (∀ (cfg : LConfig) (pm : PosMgmt) (stop : Option StopCfg)
        (data : List Bar) (period i : Nat) (s : LState),
      s.position = 0 →
      buyAccepted cfg pm s.capital (data.getD i default).close = false →
      ((maBarStep cfg pm stop data period i s).capital = s.capital ∧
       (maBarStep cfg pm stop data period i s).position = s.position ∧
       (maBarStep cfg pm stop data period i s).trades = s.trades)) ∧
    (∀ (cfg : LConfig) (pm : PosMgmt) (stop : Option StopCfg) (op : Op)
        (threshold : ℚ) (period : Nat) (data : List Bar) (i : Nat)
        (st : RState),
      st.ledger.position = 0 →
      buyAccepted cfg pm st.ledger.capital (data.getD i default).close = false →
      ((rsiBarStep cfg pm stop op threshold period data i st).ledger.capital
          = st.ledger.capital ∧
       (rsiBarStep cfg pm stop op threshold period data i st).ledger.position
          = st.ledger.position ∧
       (rsiBarStep cfg pm stop op threshold period data i st).ledger.trades
          = st.ledger.trades)) := by
  constructor
  · intro cfg pm stop data period i s hpos hrej
    rcases h1 : maAt (data.map Bar.close) (min period 10) i with - | ms
    · simp [maBarStep, h1]
    · rcases h2 : maAt (data.map Bar.close) period i with - | ml
      · simp [maBarStep, h1, h2]
      · simp only [maBarStep, h1, h2]
        have hs1 :
            (if period < i then
              if goldenCrossB (data.map Bar.close) period i ∧ s.position = 0 then
                buyAttempt cfg pm s (data.getD i default).timestamp
                  (data.getD i default).close
              else if deathCrossB (data.map Bar.close) period i ∧ 0 < s.position then
                execSellAll cfg s (data.getD i default).timestamp
                  (data.getD i default).close
              else s
            else s) = s := by
          split_ifs with hpi hgc hdc
          · exact buyAttempt_rejected hrej
          · rw [hpos] at hdc
            exact absurd hdc.2 (lt_irrefl 0)
          · rfl
          · rfl
        rw [hs1, stopLossCheck_flat_of_zero hpos]
        exact recordEquity10_fields s i (data.getD i default).timestamp
          (data.getD i default).close
  · intro cfg pm stop op threshold period data i st hpos hrej
    rcases hv : rsiAt (data.map Bar.close) period i with - | v
    · simp [rsiBarStep, hv]
    · simp only [rsiBarStep, hv]
      rw [buyAccepted] at hrej
      simp only [Bool.and_eq_false_iff, decide_eq_false_iff_not] at hrej
      by_cases hc : st.ledger.position = 0 ∧ rsiBuyCond op threshold v = true
      · rw [if_pos hc]
        by_cases hlot : cfg.minLot ≤ calculatePositionSize cfg
            st.ledger.capital (data.getD i default).close pm
        · rw [if_pos hlot]
          have hcash : ¬ ((calculatePositionSize cfg st.ledger.capital
                (data.getD i default).close pm : ℚ) * (data.getD i default).close
              + (calculatePositionSize cfg st.ledger.capital
                (data.getD i default).close pm : ℚ) * (data.getD i default).close
                * cfg.commissionRate ≤ st.ledger.capital) := by
            rcases hrej with h | h
            · exact absurd hlot h
            · exact h
          rw [if_neg hcash]
          rw [stopLossCheck_flat_of_zero hpos]
          exact recordEquity10_fields st.ledger i (data.getD i default).timestamp
            (data.getD i default).close
        · rw [if_neg hlot]
          rw [stopLossCheck_flat_of_zero hpos]
          exact recordEquity10_fields st.ledger i (data.getD i default).timestamp
            (data.getD i default).close
      · rw [if_neg hc]
        have hsell : ¬ (0 < st.ledger.position
            ∧ rsiSellCond op threshold v = true) := by
          intro h
          rw [hpos] at h
          exact absurd h.1 (lt_irrefl 0)
        rw [if_neg hsell]
        rw [stopLossCheck_flat_of_zero hpos]
        exact recordEquity10_fields st.ledger i (data.getD i default).timestamp
          (data.getD i default).close

/-- Tiny-capital configuration for the C8 witness: 50 units of cash can
never reach the 100-share minimum lot. -/
def C8cfg : LConfig :=
  { initialCapital := 50, commissionRate := 0, minLot := 100 }

/-- Increasing series for the C8 witness. -/
def C8series : List Bar :=
  (List.range 30).map (fun i => mkBar i (100 + (i : ℚ)))

unseal Rat.add Rat.mul Rat.sub Rat.inv in
theorem C8_witness :
    ((maBarStep C8cfg PosMgmt.full none C8series 20 24
          (initLState C8cfg)).capital = (initLState C8cfg).capital ∧
     (maBarStep C8cfg PosMgmt.full none C8series 20 24
          (initLState C8cfg)).position = (initLState C8cfg).position ∧
     (maBarStep C8cfg PosMgmt.full none C8series 20 24
          (initLState C8cfg)).trades = (initLState C8cfg).trades) ∧
    ((rsiBarStep C8cfg PosMgmt.full none Op.gt 50 14 C8series 24
          (initRState C8cfg)).ledger.capital = (initRState C8cfg).ledger.capital ∧
     (rsiBarStep C8cfg PosMgmt.full none Op.gt 50 14 C8series 24
          (initRState C8cfg)).ledger.position = (initRState C8cfg).ledger.position ∧
     (rsiBarStep C8cfg PosMgmt.full none Op.gt 50 14 C8series 24
          (initRState C8cfg)).ledger.trades = (initRState C8cfg).ledger.trades) :=
  ⟨C8_rejected_buy_noop.1 C8cfg PosMgmt.full none C8series 20 24
      (initLState C8cfg) (by decide) (by decide),
   C8_rejected_buy_noop.2 C8cfg PosMgmt.full none Op.gt 50 14 C8series 24
      (initRState C8cfg) (by decide) (by decide)⟩

/-- Per-symbol contract specification (the `ContractSpec` dataclass of the
futures engine). -/
structure ContractSpec where
  multiplier : ℚ
  tickSize : ℚ
  feePerContract : ℚ
  initialMarginRate : ℚ
  maintenanceMarginRate : ℚ
deriving DecidableEq, Repr

/-- `_round_to_tick`: snap the price to the tick grid with Python `round`,
then round the product to 6 decimals. -/
def roundToTick (price tick : ℚ) : ℚ :=
  if tick ≤ 0 then price
  else roundN 6 ((roundHalfEven (price / tick) : ℚ) * tick)

/-- `FuturesBacktestEngine.calculate_max_open_contracts`:
`max(0, int(equity // denom))` with the denominator guarded by `1e-9`. -/
def calculateMaxOpenContracts (spec : ContractSpec) (equity price : ℚ) : Int :=
  let denom := max (price * spec.multiplier * spec.initialMarginRate)
    (1/1000000000)
  max 0 (Rat.floor (equity / denom))

/-- Futures engine configuration (`__init__` plus the `debug` flag of
`run`). -/
structure MConfig where
  initialCapital : ℚ
  spec : ContractSpec
  debug : Bool
deriving DecidableEq, Repr

/-- Mutable state of `FuturesBacktestEngine.run`: the account variables,
the records, and the `stats` dict (counters only incremented under
`debug`, `fees_total` always). -/
structure MState where
  equity : ℚ
  cash : ℚ
  position : Int
  entryPrice : ℚ
  entryFeeTotal : ℚ
  prevClose : Option ℚ
  trades : List Trade
  equityCurve : List EPoint
  sigBuy : Nat
  sigSell : Nat
  buyAttempts : Nat
  buys : Nat
  sellAttempts : Nat
  sells : Nat
  noCapacity : Nat
  forcedLiquidations : Nat
  capacitySamples : List Int
  feesTotal : ℚ
deriving DecidableEq, Repr

/-- Fresh margin-engine state. -/
def initMState (initialCapital : ℚ) : MState :=
  { equity := initialCapital, cash := initialCapital, position := 0,
    entryPrice := 0, entryFeeTotal := 0, prevClose := none, trades := [],
    equityCurve := [], sigBuy := 0, sigSell := 0, buyAttempts := 0,
    buys := 0, sellAttempts := 0, sells := 0, noCapacity := 0,
    forcedLiquidations := 0, capacitySamples := [], feesTotal := 0 }

/-- `_append_equity`: the return is taken against the previous recorded
point when that is present and positive (`if prev_equity and
prev_equity > 0`). -/
def appendEquity (curve : List EPoint) (ts : Nat) (equity price : ℚ)
    (prevEquity : Option ℚ) : List EPoint :=
  let ret : ℚ :=
    match prevEquity with
    | some pe => if 0 < pe then (equity - pe) / pe else 0
    | none => 0
  curve ++ [⟨ts, round2 equity, round4 ret, round2 price⟩]

/-- The per-bar maintenance requirement
`position * price * multiplier * maintenance_margin_rate`. -/
def maintReq (spec : ContractSpec) (position : Int) (px : ℚ) : ℚ :=
  (position : ℚ) * px * spec.multiplier * spec.maintenanceMarginRate

/-- Mark-to-market at the bar open: both equity and cash move by the price
change times multiplier times position (variation-margin settlement). -/
def marginMtm (spec : ContractSpec) (s : MState) (px : ℚ) : MState :=
  match s.prevClose with
  | some pc =>
    if s.position ≠ 0 then
      let dPnl := (px - pc) * spec.multiplier * (s.position : ℚ)
      { s with equity := s.equity + dPnl, cash := s.cash + dPnl }
    else s
  | none => s

/-- The forced-liquidation check: while long, if equity is below the
maintenance requirement, fully close at the current price, charge the exit
fee against cash, record one sell trade whose pnl nets out entry and exit
fees, zero the position, and (under debug) count the event.  Returns the
`traded_this_bar` flag. -/
def marginLiqStep (cfg : MConfig) (s : MState) (ts : Nat) (px : ℚ) :
    MState × Bool :=
  if 0 < s.position then
    if s.equity < maintReq cfg.spec s.position px then
      let fee := cfg.spec.feePerContract * (s.position : ℚ)
      let pnlGross := (px - s.entryPrice) * cfg.spec.multiplier * (s.position : ℚ)
      let pnlNet := pnlGross - s.entryFeeTotal - fee
      ({ s with cash := s.cash - fee,
                feesTotal := s.feesTotal + fee,
                trades := s.trades ++ [mkTrade ts TAction.sell (round2 px)
                  s.position (round2 fee) (some (round2 pnlNet)) false],
                position := 0,
                entryFeeTotal := 0,
                forcedLiquidations := s.forcedLiquidations
                  + (if cfg.debug then 1 else 0) }, true)
    else (s, false)
  else (s, false)

/-- The buy/sell `if/elif` of `run`: open `max(1, max_open)` contracts on a
buy signal while flat (the `qty > 0` guard can never fail, so the
`no_capacity` rejection branch is unreachable); fully close on a sell
signal while long. -/
def marginTradeStep (cfg : MConfig) (s : MState) (ts : Nat) (px : ℚ)
    (buySignal sellSignal : Bool) (traded : Bool) : MState × Bool :=
  if ¬ traded ∧ buySignal = true ∧ s.position = 0 then
    let maxOpen := calculateMaxOpenContracts cfg.spec s.equity px
    let s0 :=
      if cfg.debug then
        { s with sigBuy := s.sigBuy + 1, buyAttempts := s.buyAttempts + 1,
                 capacitySamples := s.capacitySamples ++ [maxOpen] }
      else s
    let qty := max 1 maxOpen
    if 0 < qty then
      let fee := cfg.spec.feePerContract * (qty : ℚ)
      ({ s0 with cash := s0.cash - fee,
                 feesTotal := s0.feesTotal + fee,
                 position := s0.position + qty,
                 entryPrice := px,
                 entryFeeTotal := fee,
                 trades := s0.trades ++ [mkTrade ts TAction.buy (round2 px)
                   qty (round2 fee) none false],
                 buys := s0.buys + (if cfg.debug then 1 else 0) }, true)
    else
      ({ s0 with noCapacity := s0.noCapacity
          + (if cfg.debug then 1 else 0) }, traded)
  else if ¬ traded ∧ sellSignal = true ∧ 0 < s.position then
    let s0 :=
      if cfg.debug then
        { s with sigSell := s.sigSell + 1,
                 sellAttempts := s.sellAttempts + 1 }
      else s
    let fee := cfg.spec.feePerContract * (s.position : ℚ)
    let pnlGross := (px - s.entryPrice) * cfg.spec.multiplier * (s.position : ℚ)
    let pnlNet := pnlGross - s.entryFeeTotal - fee
    ({ s0 with cash := s0.cash - fee,
               feesTotal := s0.feesTotal + fee,
               trades := s0.trades ++ [mkTrade ts TAction.sell (round2 px)
                 s.position (round2 fee) (some (round2 pnlNet)) false],
               position := 0,
               entryFeeTotal := 0,
               sells := s0.sells + (if cfg.debug then 1 else 0) }, true)
  else (s, traded)

/-- The strategy node the futures engine dispatches on: the first node's
`subType` selects the RSI signal or the default double-MA signal. -/
inductive SigKind
  | rsi (period : Nat) (threshold : ℚ) (op : Op)
  | ma (period : Nat)
deriving DecidableEq, Repr

/-- The per-bar signal pair of `FuturesBacktestEngine.run` (computed before
the liquidation check, from the position as of mark-to-market). -/
def marginSignals (sig : SigKind) (data : List Bar) (i : Nat)
    (position : Int) : Bool × Bool :=
  match sig with
  | SigKind.rsi period threshold op =>
    match rsiAt (data.map Bar.close) period i with
    | some v =>
      ((decide (position = 0) && futBuySignal op threshold v),
       (decide (0 < position) && futSellSignal op threshold v))
    | none => (false, false)
  | SigKind.ma period =>
    let closes := data.map Bar.close
    match maAt closes (min 10 period) i, maAt closes period i,
        maAt closes (min 10 period) (i - 1), maAt closes period (i - 1) with
    | some ms, some ml, some ps, some pl =>
      ((decide (position = 0) && decide (ml < ms) && decide (ps ≤ pl)),
       (decide (0 < position) && decide (ms < ml) && decide (pl ≤ ps)))
    | _, _, _, _ => (false, false)

/-- One iteration of `FuturesBacktestEngine.run`'s bar loop: tick-snap the
close, mark to market, capture the previous recorded equity, compute the
signals, run the forced-liquidation check, then the buy/sell `if/elif`,
record the equity point, and remember the close. -/
def marginBarStep (cfg : MConfig) (sig : SigKind) (data : List Bar) (i : Nat)
    (s : MState) : MState :=
  let row := data.getD i default
  let ts := row.timestamp
  let px := roundToTick row.close cfg.spec.tickSize
  let s1 := marginMtm cfg.spec s px
  let prevEquity := s1.equityCurve.getLast?.map EPoint.equity
  let sigs := marginSignals sig data i s1.position
  let liq := marginLiqStep cfg s1 ts px
  let s3 := (marginTradeStep cfg liq.1 ts px sigs.1 sigs.2 liq.2).1
  { s3 with equityCurve := appendEquity s3.equityCurve ts s3.equity px prevEquity,
            prevClose := some px }

/-- The forced close of any open position at the last bar (fees only; the
equity variable is not touched). -/
def marginCloseEnd (cfg : MConfig) (data : List Bar) (s : MState) : MState :=
  if 0 < s.position ∧ 0 < data.length then
    let lastRow := data.getD (data.length - 1) default
    let px := roundToTick lastRow.close cfg.spec.tickSize
    let fee := cfg.spec.feePerContract * (s.position : ℚ)
    let pnlGross := (px - s.entryPrice) * cfg.spec.multiplier * (s.position : ℚ)
    let pnlNet := pnlGross - s.entryFeeTotal - fee
    { s with cash := s.cash - fee,
             feesTotal := s.feesTotal + fee,
             trades := s.trades ++ [mkTrade lastRow.timestamp TAction.sell
               (round2 px) s.position (round2 fee) (some (round2 pnlNet)) false],
             position := 0,
             entryFeeTotal := 0 }
  else s

/-- The whole `FuturesBacktestEngine.run` loop
(`for i in range(max(20, 14), len(data))`) plus the end-of-series close. -/
def marginRun (cfg : MConfig) (sig : SigKind) (data : List Bar) : MState :=
  marginCloseEnd cfg data
    ((List.range' (max 20 14) (data.length - max 20 14)).foldl
      (fun s i => marginBarStep cfg sig data i s)
      (initMState cfg.initialCapital))

/-- `FuturesBacktestEngine._max_drawdown` over the recorded curve. -/
def marginMaxDrawdown (curve : List EPoint) : ℚ :=
  match curve with
  | [] => 0
  | p0 :: _ =>
    let f := curve.foldl
      (fun (acc : ℚ × ℚ) p =>
        let peak := if acc.1 < p.equity then p.equity else acc.1
        let dd := if 0 < peak then (peak - p.equity) / peak else 0
        (peak, if acc.2 < dd then dd else acc.2))
      (p0.equity, 0)
    round4 f.2

/-- The summary record returned by `FuturesBacktestEngine.run`. -/
structure MResult where
  initialCapital : ℚ
  finalEquity : ℚ
  totalReturn : ℚ
  winRate : ℚ
  profitLossRatio : ℚ
  maxDrawdown : ℚ
  totalTrades : Nat
  trades : List Trade
  equityCurve : List EPoint
deriving DecidableEq, Repr

/-- `np.mean` of a nonempty float list. -/
def listMeanQ (l : List ℚ) : ℚ := l.sum / (l.length : ℚ)

/-- The metric assembly at the end of `FuturesBacktestEngine.run`. -/
def marginResult (cfg : MConfig) (s : MState) : MResult :=
  let totalReturn : ℚ :=
    if 0 < cfg.initialCapital then
      (s.equity - cfg.initialCapital) / cfg.initialCapital
    else 0
  let sellTrades := s.trades.filter
    (fun t => t.action == TAction.sell && t.pnl.isSome)
  let wins := sellTrades.filter (fun t => decide (0 < t.pnl.getD 0))
  let winRate : ℚ :=
    if sellTrades.length ≠ 0 then
      (wins.length : ℚ) / (sellTrades.length : ℚ)
    else 0
  let winVals := if wins.isEmpty then [(0 : ℚ)]
    else wins.map (fun t => t.pnl.getD 0)
  let lossListRaw := (sellTrades.filter
    (fun t => decide (t.pnl.getD 0 < 0))).map (fun t => |t.pnl.getD 0|)
  let lossVals := if lossListRaw.isEmpty then [(0 : ℚ)] else lossListRaw
  let plr : ℚ :=
    if sellTrades.length ≠ 0 ∧ 0 < lossVals.sum then
      (if listMeanQ lossVals ≠ 0 then |listMeanQ winVals / listMeanQ lossVals|
       else 0)
    else 0
  { initialCapital := round2 cfg.initialCapital,
    finalEquity := round2 s.equity,
    totalReturn := round4 totalReturn,
    winRate := round4 winRate,
    profitLossRatio := round4 plr,
    maxDrawdown := marginMaxDrawdown s.equityCurve,
    totalTrades := s.trades.length,
    trades := s.trades,
    equityCurve := s.equityCurve }

theorem marginMtm_fields (spec : ContractSpec) (s : MState) (px : ℚ) :
    (marginMtm spec s px).position = s.position ∧
    (marginMtm spec s px).forcedLiquidations = s.forcedLiquidations ∧
    (marginMtm spec s px).noCapacity = s.noCapacity ∧
    (marginMtm spec s px).equityCurve = s.equityCurve := by
  rcases h : s.prevClose with - | pc <;> simp only [marginMtm, h] <;>
    first
    | (split_ifs <;> simp)
    | simp

theorem marginTradeStep_forcedLiq (cfg : MConfig) (s : MState) (ts : Nat)
    (px : ℚ) (b se : Bool) (tr : Bool) :
    (marginTradeStep cfg s ts px b se tr).1.forcedLiquidations
      = s.forcedLiquidations := by
  simp only [marginTradeStep]
  split_ifs <;> rfl

theorem marginTradeStep_noCapacity (cfg : MConfig) (s : MState) (ts : Nat)
    (px : ℚ) (b se : Bool) (tr : Bool) :
    (marginTradeStep cfg s ts px b se tr).1.noCapacity = s.noCapacity := by
  simp only [marginTradeStep]
  split_ifs with h1 h2 h3 <;> try rfl
  · exact absurd (lt_of_lt_of_le one_pos
      (le_max_left 1 (calculateMaxOpenContracts cfg.spec s.equity px))) h2

theorem marginLiqStep_noCapacity (cfg : MConfig) (s : MState) (ts : Nat)
    (px : ℚ) :
    (marginLiqStep cfg s ts px).1.noCapacity = s.noCapacity := by
  simp only [marginLiqStep]
  split_ifs <;> rfl

theorem marginLiqStep_forcedLiq (cfg : MConfig) (s : MState) (ts : Nat)
    (px : ℚ) :
    (marginLiqStep cfg s ts px).1.forcedLiquidations
      = s.forcedLiquidations
        + (if 0 < s.position ∧ s.equity < maintReq cfg.spec s.position px
           then (if cfg.debug then 1 else 0) else 0) := by
  simp only [marginLiqStep]
  split_ifs with h1 h2 <;> simp_all

/-- C6: the margin engine never force-liquidates on a bar where the
(marked-to-market) equity meets the maintenance requirement; on any bar
where a long position's equity is below it, the check fires exactly once:
it fully closes at the tick-snapped price, records one sell trade whose
pnl is gross pnl net of entry and exit fees, zeroes the position (equity
itself is untouched by the fee, which is charged to cash), and the per-bar
liquidation counter increments exactly when that condition holds. -/
theorem C6_forced_liquidation :
    (∀ (cfg : MConfig) (s : MState) (ts : Nat) (px : ℚ),
      0 < s.position → maintReq cfg.spec s.position px ≤ s.equity →
      marginLiqStep cfg s ts px = (s, false)) ∧
    (∀ (cfg : MConfig) (s : MState) (ts : Nat) (px : ℚ),
      0 < s.position → s.equity < maintReq cfg.spec s.position px →
      ((marginLiqStep cfg s ts px).2 = true ∧
       (marginLiqStep cfg s ts px).1.position = 0 ∧
       (marginLiqStep cfg s ts px).1.equity = s.equity ∧
       (marginLiqStep cfg s ts px).1.cash
         = s.cash - cfg.spec.feePerContract * (s.position : ℚ) ∧
       (marginLiqStep cfg s ts px).1.trades
         = s.trades ++ [mkTrade ts TAction.sell (round2 px) s.position
             (round2 (cfg.spec.feePerContract * (s.position : ℚ)))
             (some (round2 ((px - s.entryPrice) * cfg.spec.multiplier
                * (s.position : ℚ) - s.entryFeeTotal
                - cfg.spec.feePerContract * (s.position : ℚ)))) false])) ∧
    (∀ (cfg : MConfig) (sig : SigKind) (data : List Bar) (i : Nat)
        (s : MState),
      cfg.debug = true →
      (marginBarStep cfg sig data i s).forcedLiquidations
        = s.forcedLiquidations
          + (if 0 < s.position ∧
                (marginMtm cfg.spec s (roundToTick (data.getD i default).close
                    cfg.spec.tickSize)).equity
                  < maintReq cfg.spec s.position
                      (roundToTick (data.getD i default).close
                        cfg.spec.tickSize)
             then 1 else 0)) := by
  refine ⟨?_, ?_, ?_⟩
  · intro cfg s ts px hpos hge
    rw [marginLiqStep, if_pos hpos, if_neg (not_lt.mpr hge)]
  · intro cfg s ts px hpos hlt
    simp only [marginLiqStep]
    rw [if_pos hpos, if_pos hlt]
    exact ⟨rfl, rfl, rfl, rfl, rfl⟩
  · intro cfg sig data i s hdbg
    simp only [marginBarStep]
    rw [marginTradeStep_forcedLiq, marginLiqStep_forcedLiq]
    rw [(marginMtm_fields cfg.spec s _).2.1, (marginMtm_fields cfg.spec s _).1,
      hdbg]
    simp

/-- Margin configuration for the C6 witness. -/
def C6cfg : MConfig :=
  { initialCapital := 1000,
    spec := { multiplier := 10, tickSize := 1, feePerContract := 2,
              initialMarginRate := 14/100, maintenanceMarginRate := 14/100 },
    debug := true }

/-- Undercapitalised long state for the C6 witness: equity 10 against a
maintenance requirement of 140 at price 100. -/
def C6state : MState :=
  { initMState 1000 with
      position := 1, equity := 10, entryPrice := 100, entryFeeTotal := 2 }

/-- Healthy long state for the C6 witness: equity 500 meets the
requirement. -/
def C6state2 : MState :=
  { initMState 1000 with
      position := 1, equity := 500, entryPrice := 100, entryFeeTotal := 2 }

unseal Rat.add Rat.mul Rat.sub Rat.inv in
theorem C6_witness :
    marginLiqStep C6cfg C6state2 5 100 = (C6state2, false) ∧
    ((marginLiqStep C6cfg C6state 5 100).2 = true ∧
     (marginLiqStep C6cfg C6state 5 100).1.position = 0 ∧
     (marginLiqStep C6cfg C6state 5 100).1.equity = C6state.equity ∧
     (marginLiqStep C6cfg C6state 5 100).1.cash
       = C6state.cash - C6cfg.spec.feePerContract * (C6state.position : ℚ) ∧
     (marginLiqStep C6cfg C6state 5 100).1.trades
       = C6state.trades ++ [mkTrade 5 TAction.sell (round2 100) C6state.position
           (round2 (C6cfg.spec.feePerContract * (C6state.position : ℚ)))
           (some (round2 ((100 - C6state.entryPrice) * C6cfg.spec.multiplier
              * (C6state.position : ℚ) - C6state.entryFeeTotal
              - C6cfg.spec.feePerContract * (C6state.position : ℚ)))) false]) :=
  ⟨C6_forced_liquidation.1 C6cfg C6state2 5 100 (by decide) (by decide),
   C6_forced_liquidation.2.1 C6cfg C6state 5 100 (by decide) (by decide)⟩

theorem marginBarStep_noCapacity (cfg : MConfig) (sig : SigKind)
    (data : List Bar) (i : Nat) (s : MState) :
    (marginBarStep cfg sig data i s).noCapacity = s.noCapacity := by
  simp only [marginBarStep]
  rw [marginTradeStep_noCapacity, marginLiqStep_noCapacity,
    (marginMtm_fields cfg.spec s _).2.2.1]

theorem marginCloseEnd_noCapacity (cfg : MConfig) (data : List Bar)
    (s : MState) :
    (marginCloseEnd cfg data s).noCapacity = s.noCapacity := by
  simp only [marginCloseEnd]
  split_ifs <;> rfl

theorem foldl_marginBarStep_noCapacity (cfg : MConfig) (sig : SigKind)
    (data : List Bar) (l : List Nat) (s : MState) :
    (l.foldl (fun s i => marginBarStep cfg sig data i s) s).noCapacity
      = s.noCapacity := by
  induction l generalizing s with
  | nil => rfl
  | cons j r ih => rw [List.foldl_cons, ih, marginBarStep_noCapacity]

/-- C7 (amended): on a buy signal while flat the margin engine opens
`max(1, floor(equity / (price·multiplier·initial_margin_rate)))` contracts
and always records the buy trade — the quantity is clamped to at least one
contract, so a computed capacity of 0 still opens one contract; the
`no_capacity` rejection branch is unreachable and its counter is 0 after
every run. -/
theorem C7_entry_quantity :
    (∀ (cfg : MConfig) (s : MState) (ts : Nat) (px : ℚ) (se : Bool),
      s.position = 0 →
      ((marginTradeStep cfg s ts px true se false).1.position
          = max 1 (calculateMaxOpenContracts cfg.spec s.equity px) ∧
       (marginTradeStep cfg s ts px true se false).1.trades
          = s.trades ++ [mkTrade ts TAction.buy (round2 px)
              (max 1 (calculateMaxOpenContracts cfg.spec s.equity px))
              (round2 (cfg.spec.feePerContract
                * ((max 1 (calculateMaxOpenContracts cfg.spec s.equity px) : Int) : ℚ)))
              none false] ∧
       (marginTradeStep cfg s ts px true se false).1.noCapacity
          = s.noCapacity ∧
       (marginTradeStep cfg s ts px true se false).2 = true)) ∧
    (∀ (cfg : MConfig) (sig : SigKind) (data : List Bar),
      (marginRun cfg sig data).noCapacity = 0) := by
  constructor
  · intro cfg s ts px se hpos
    simp only [marginTradeStep]
    rw [if_pos (by simp [hpos]),
      if_pos (lt_of_lt_of_le one_pos
        (le_max_left 1 (calculateMaxOpenContracts cfg.spec s.equity px)))]
    by_cases hdbg : cfg.debug
    · simp [hdbg, hpos]
    · simp [hdbg, hpos]
  · intro cfg sig data
    rw [marginRun, marginCloseEnd_noCapacity, foldl_marginBarStep_noCapacity]
    rfl

/-- Margin configuration for the C7 counterexample and witness (`debug`
on, so the rejection counter would move if its branch were reachable). -/
def C7cfg : MConfig :=
  { initialCapital := 10,
    spec := { multiplier := 10, tickSize := 1, feePerContract := 2,
              initialMarginRate := 14/100, maintenanceMarginRate := 14/100 },
    debug := true }

/-- Flat state with equity 10 — not enough margin for a single contract at
price 100. -/
def C7state : MState := initMState 10

unseal Rat.add Rat.mul Rat.sub Rat.inv in
/-- C7 counterexample: with equity 10 at price 100 the floored capacity is
0 (10 / (100·10·0.14) < 1), yet the buy signal opens a position of one
contract and records a buy trade, and the `no_capacity` rejection counter
stays 0 — the order is not rejected as the claim states. -/
theorem C7_counterexample :
    calculateMaxOpenContracts C7cfg.spec 10 100 = 0 ∧
    (marginTradeStep C7cfg C7state 5 100 true false false).1.position = 1 ∧
    (marginTradeStep C7cfg C7state 5 100 true false false).1.trades.length
      = 1 ∧
    (marginTradeStep C7cfg C7state 5 100 true false false).1.noCapacity
      = 0 := by
  refine ⟨by decide, by decide, by decide, by decide⟩

unseal Rat.add Rat.mul Rat.sub Rat.inv in
theorem C7_witness :
    ((marginTradeStep C7cfg C7state 5 100 true false false).1.position
        = max 1 (calculateMaxOpenContracts C7cfg.spec C7state.equity 100) ∧
     (marginTradeStep C7cfg C7state 5 100 true false false).1.trades
        = C7state.trades ++ [mkTrade 5 TAction.buy (round2 100)
            (max 1 (calculateMaxOpenContracts C7cfg.spec C7state.equity 100))
            (round2 (C7cfg.spec.feePerContract
              * ((max 1 (calculateMaxOpenContracts C7cfg.spec C7state.equity 100) : Int) : ℚ)))
            none false] ∧
     (marginTradeStep C7cfg C7state 5 100 true false false).1.noCapacity
        = C7state.noCapacity ∧
     (marginTradeStep C7cfg C7state 5 100 true false false).2 = true) ∧
    (marginRun C7cfg (SigKind.ma 20) []).noCapacity = 0 :=
  ⟨C7_entry_quantity.1 C7cfg C7state 5 100 false (by decide),
   C7_entry_quantity.2 C7cfg (SigKind.ma 20) []⟩

/-- The margin-state components that determine the reported equity path:
equity, position, entry price, previous close, and the recorded equity
curve.  Fee charges touch none of them. -/
def MRel (s1 s2 : MState) : Prop :=
  s1.equity = s2.equity ∧ s1.position = s2.position ∧
  s1.entryPrice = s2.entryPrice ∧ s1.prevClose = s2.prevClose ∧
  s1.equityCurve = s2.equityCurve

/-- Configurations equal in everything except `fee_per_contract`. -/
def feeOnlyDiff (c1 c2 : MConfig) : Prop :=
  c1.initialCapital = c2.initialCapital ∧ c1.debug = c2.debug ∧
  c1.spec.multiplier = c2.spec.multiplier ∧
  c1.spec.tickSize = c2.spec.tickSize ∧
  c1.spec.initialMarginRate = c2.spec.initialMarginRate ∧
  c1.spec.maintenanceMarginRate = c2.spec.maintenanceMarginRate

/-- `ContractSpec` with the per-contract fee replaced. -/
def MConfig.setFee (c : MConfig) (f : ℚ) : MConfig :=
  { c with spec := { c.spec with feePerContract := f } }

theorem marginMtm_rel {c1 c2 : ContractSpec} (hm : c1.multiplier = c2.multiplier)
    {s1 s2 : MState} (h : MRel s1 s2) (px : ℚ) :
    MRel (marginMtm c1 s1 px) (marginMtm c2 s2 px) := by
  obtain ⟨he, hp, hep, hpc, hcv⟩ := h
  rcases hc : s1.prevClose with - | pc
  · have hc2 : s2.prevClose = none := by rw [← hpc, hc]
    simp only [marginMtm, hc, hc2]
    exact ⟨he, hp, hep, hpc, hcv⟩
  · have hc2 : s2.prevClose = some pc := by rw [← hpc, hc]
    simp only [marginMtm, hc, hc2]
    by_cases hz : s1.position ≠ 0
    · rw [if_pos hz, if_pos (by rw [← hp]; exact hz)]
      exact ⟨by rw [he, hp, hm], hp, hep, rfl, hcv⟩
    · rw [if_neg hz, if_neg (by rw [← hp]; exact hz)]
      exact ⟨he, hp, hep, hpc, hcv⟩

theorem marginLiqStep_rel {c1 c2 : MConfig} (hd : feeOnlyDiff c1 c2)
    {s1 s2 : MState} (h : MRel s1 s2) (ts : Nat) (px : ℚ) :
    MRel (marginLiqStep c1 s1 ts px).1 (marginLiqStep c2 s2 ts px).1 ∧
    (marginLiqStep c1 s1 ts px).2 = (marginLiqStep c2 s2 ts px).2 := by
  obtain ⟨he, hp, hep, hpc, hcv⟩ := h
  obtain ⟨hic, hdbg, hm, htick, himr, hmmr⟩ := hd
  have hmr : maintReq c1.spec s1.position px
      = maintReq c2.spec s2.position px := by
    rw [maintReq, maintReq, hp, hm, hmmr]
  simp only [marginLiqStep]
  by_cases h1 : 0 < s1.position
  · rw [if_pos h1, if_pos (show 0 < s2.position by rw [← hp]; exact h1)]
    by_cases h2 : s1.equity < maintReq c1.spec s1.position px
    · rw [if_pos h2, if_pos (show s2.equity < maintReq c2.spec s2.position px
        by rw [← he, ← hmr]; exact h2)]
      exact ⟨⟨he, rfl, hep, hpc, hcv⟩, rfl⟩
    · rw [if_neg h2, if_neg (show ¬ s2.equity < maintReq c2.spec s2.position px
        by rw [← he, ← hmr]; exact h2)]
      exact ⟨⟨he, hp, hep, hpc, hcv⟩, rfl⟩
  · rw [if_neg h1, if_neg (show ¬ 0 < s2.position by rw [← hp]; exact h1)]
    exact ⟨⟨he, hp, hep, hpc, hcv⟩, rfl⟩

theorem marginTradeStep_rel {c1 c2 : MConfig} (hd : feeOnlyDiff c1 c2)
    {s1 s2 : MState} (h : MRel s1 s2) (ts : Nat) (px : ℚ) (b se : Bool)
    (tr : Bool) :
    MRel (marginTradeStep c1 s1 ts px b se tr).1
      (marginTradeStep c2 s2 ts px b se tr).1 ∧
    (marginTradeStep c1 s1 ts px b se tr).2
      = (marginTradeStep c2 s2 ts px b se tr).2 := by
  obtain ⟨he, hp, hep, hpc, hcv⟩ := h
  obtain ⟨hic, hdbg, hm, htick, himr, hmmr⟩ := hd
  have hmo : calculateMaxOpenContracts c1.spec s1.equity px
      = calculateMaxOpenContracts c2.spec s2.equity px := by
    rw [calculateMaxOpenContracts, calculateMaxOpenContracts, he, hm, himr]
  simp only [marginTradeStep]
  by_cases hb : ¬ tr = true ∧ b = true ∧ s1.position = 0
  · have hbb : ¬ tr = true ∧ b = true ∧ s2.position = 0 :=
      ⟨hb.1, hb.2.1, by rw [← hp]; exact hb.2.2⟩
    have hq1 : (0 : Int) < max 1 (calculateMaxOpenContracts c1.spec s1.equity px) :=
      lt_of_lt_of_le one_pos (le_max_left _ _)
    have hq2 : (0 : Int) < max 1 (calculateMaxOpenContracts c2.spec s2.equity px) :=
      lt_of_lt_of_le one_pos (le_max_left _ _)
    rw [if_pos hb, if_pos hbb, if_pos hq1, if_pos hq2]
    by_cases hb1 : c1.debug = true
    · have hb2 : c2.debug = true := by rw [← hdbg]; exact hb1
      rw [if_pos hb1, if_pos hb2]
      exact ⟨⟨he, by rw [hp, hmo], rfl, hpc, hcv⟩, rfl⟩
    · have hb2 : ¬ c2.debug = true := by rw [← hdbg]; exact hb1
      rw [if_neg hb1, if_neg hb2]
      exact ⟨⟨he, by rw [hp, hmo], rfl, hpc, hcv⟩, rfl⟩
  · have hbb2 : ¬ (¬ tr = true ∧ b = true ∧ s2.position = 0) :=
      fun hc => hb ⟨hc.1, hc.2.1, by rw [hp]; exact hc.2.2⟩
    rw [if_neg hb, if_neg hbb2]
    by_cases hs : ¬ tr = true ∧ se = true ∧ 0 < s1.position
    · have hss : ¬ tr = true ∧ se = true ∧ 0 < s2.position :=
        ⟨hs.1, hs.2.1, by rw [← hp]; exact hs.2.2⟩
      rw [if_pos hs, if_pos hss]
      by_cases hb1 : c1.debug = true
      · have hb2 : c2.debug = true := by rw [← hdbg]; exact hb1
        rw [if_pos hb1, if_pos hb2]
        exact ⟨⟨he, rfl, hep, hpc, hcv⟩, rfl⟩
      · have hb2 : ¬ c2.debug = true := by rw [← hdbg]; exact hb1
        rw [if_neg hb1, if_neg hb2]
        exact ⟨⟨he, rfl, hep, hpc, hcv⟩, rfl⟩
    · have hss2 : ¬ (¬ tr = true ∧ se = true ∧ 0 < s2.position) :=
        fun hc => hs ⟨hc.1, hc.2.1, by rw [hp]; exact hc.2.2⟩
      rw [if_neg hs, if_neg hss2]
      exact ⟨⟨he, hp, hep, hpc, hcv⟩, rfl⟩

theorem marginBarStep_rel {c1 c2 : MConfig} (hd : feeOnlyDiff c1 c2)
    (sig : SigKind) (data : List Bar) (i : Nat) {s1 s2 : MState}
    (h : MRel s1 s2) :
    MRel (marginBarStep c1 sig data i s1) (marginBarStep c2 sig data i s2) := by
  obtain ⟨hic, hdbg, hm, htick, himr, hmmr⟩ := hd
  simp only [marginBarStep]
  rw [htick]
  have h1 := marginMtm_rel hm h
    (roundToTick (data.getD i default).close c2.spec.tickSize)
  have h2 := marginLiqStep_rel ⟨hic, hdbg, hm, htick, himr, hmmr⟩ h1
    (data.getD i default).timestamp
    (roundToTick (data.getD i default).close c2.spec.tickSize)
  have hsig : marginSignals sig data i
        (marginMtm c1.spec s1
          (roundToTick (data.getD i default).close c2.spec.tickSize)).position
      = marginSignals sig data i
        (marginMtm c2.spec s2
          (roundToTick (data.getD i default).close c2.spec.tickSize)).position := by
    rw [h1.2.1]
  rw [hsig, h2.2]
  have h3 := marginTradeStep_rel ⟨hic, hdbg, hm, htick, himr, hmmr⟩ h2.1
    (data.getD i default).timestamp
    (roundToTick (data.getD i default).close c2.spec.tickSize)
    (marginSignals sig data i
      (marginMtm c2.spec s2
        (roundToTick (data.getD i default).close c2.spec.tickSize)).position).1
    (marginSignals sig data i
      (marginMtm c2.spec s2
        (roundToTick (data.getD i default).close c2.spec.tickSize)).position).2
    (marginLiqStep c2
      (marginMtm c2.spec s2
        (roundToTick (data.getD i default).close c2.spec.tickSize))
      (data.getD i default).timestamp
      (roundToTick (data.getD i default).close c2.spec.tickSize)).2
  refine ⟨h3.1.1, h3.1.2.1, h3.1.2.2.1, rfl, ?_⟩
  rw [h3.1.1, h3.1.2.2.2.2, h1.2.2.2.2]

theorem marginCloseEnd_rel {c1 c2 : MConfig} (hd : feeOnlyDiff c1 c2)
    (data : List Bar) {s1 s2 : MState} (h : MRel s1 s2) :
    MRel (marginCloseEnd c1 data s1) (marginCloseEnd c2 data s2) := by
  obtain ⟨he, hp, hep, hpc, hcv⟩ := h
  obtain ⟨hic, hdbg, hm, htick, himr, hmmr⟩ := hd
  simp only [marginCloseEnd]
  by_cases h1 : 0 < s1.position ∧ 0 < data.length
  · have h1b : 0 < s2.position ∧ 0 < data.length :=
      ⟨by rw [← hp]; exact h1.1, h1.2⟩
    rw [if_pos h1, if_pos h1b]
    exact ⟨he, rfl, hep, hpc, hcv⟩
  · have h1b : ¬ (0 < s2.position ∧ 0 < data.length) :=
      fun hc => h1 ⟨by rw [hp]; exact hc.1, hc.2⟩
    rw [if_neg h1, if_neg h1b]
    exact ⟨he, hp, hep, hpc, hcv⟩

theorem marginRun_rel {c1 c2 : MConfig} (hd : feeOnlyDiff c1 c2)
    (sig : SigKind) (data : List Bar) :
    MRel (marginRun c1 sig data) (marginRun c2 sig data) := by
  rw [marginRun, marginRun]
  apply marginCloseEnd_rel hd
  have hfold : ∀ (l : List Nat) (s1 s2 : MState), MRel s1 s2 →
      MRel (l.foldl (fun s i => marginBarStep c1 sig data i s) s1)
           (l.foldl (fun s i => marginBarStep c2 sig data i s) s2) := by
    intro l
    induction l with
    | nil => intro s1 s2 h; exact h
    | cons j r ih =>
      intro s1 s2 h
      exact ih _ _ (marginBarStep_rel hd sig data j h)
  apply hfold
  rw [hd.1]
  exact ⟨rfl, rfl, rfl, rfl, rfl⟩

/-- C10: every fee site of the margin engine (entry, signal exit, forced
liquidation, end-of-series close) decrements only cash and never the
equity variable; consequently two runs that differ only in
`fee_per_contract` report identical `final_equity`, `total_return`,
equity curves and max drawdown — fees surface only in the recorded trade
pnls. -/
theorem C10_fees_never_touch_equity :
    (∀ (cfg : MConfig) (s : MState) (ts : Nat) (px : ℚ),
      (marginLiqStep cfg s ts px).1.equity = s.equity) ∧
    (∀ (cfg : MConfig) (s : MState) (ts : Nat) (px : ℚ) (b se tr : Bool),
      (marginTradeStep cfg s ts px b se tr).1.equity = s.equity) ∧
    (∀ (cfg : MConfig) (data : List Bar) (s : MState),
      (marginCloseEnd cfg data s).equity = s.equity) ∧
    (∀ (cfg : MConfig) (f1 f2 : ℚ) (sig : SigKind) (data : List Bar),
      (marginResult (cfg.setFee f1)
          (marginRun (cfg.setFee f1) sig data)).finalEquity
        = (marginResult (cfg.setFee f2)
            (marginRun (cfg.setFee f2) sig data)).finalEquity ∧
      (marginResult (cfg.setFee f1)
          (marginRun (cfg.setFee f1) sig data)).totalReturn
        = (marginResult (cfg.setFee f2)
            (marginRun (cfg.setFee f2) sig data)).totalReturn ∧
      (marginResult (cfg.setFee f1)
          (marginRun (cfg.setFee f1) sig data)).equityCurve
        = (marginResult (cfg.setFee f2)
            (marginRun (cfg.setFee f2) sig data)).equityCurve ∧
      (marginResult (cfg.setFee f1)
          (marginRun (cfg.setFee f1) sig data)).maxDrawdown
        = (marginResult (cfg.setFee f2)
            (marginRun (cfg.setFee f2) sig data)).maxDrawdown) := by
  refine ⟨?_, ?_, ?_, ?_⟩
  · intro cfg s ts px
    simp only [marginLiqStep]
    split_ifs <;> rfl
  · intro cfg s ts px b se tr
    simp only [marginTradeStep]
    split_ifs <;> rfl
  · intro cfg data s
    simp only [marginCloseEnd]
    split_ifs <;> rfl
  · intro cfg f1 f2 sig data
    have hd : feeOnlyDiff (cfg.setFee f1) (cfg.setFee f2) :=
      ⟨rfl, rfl, rfl, rfl, rfl, rfl⟩
    have hrel := marginRun_rel hd sig data
    obtain ⟨he, hp, hep, hpc, hcv⟩ := hrel
    refine ⟨?_, ?_, ?_, ?_⟩
    · simp only [marginResult]
      rw [he]
    · simp only [marginResult]
      rw [he, show (cfg.setFee f1).initialCapital
        = (cfg.setFee f2).initialCapital from rfl]
    · simp only [marginResult]
      rw [hcv]
    · simp only [marginResult]
      rw [hcv]

/-- A NumPy float64 value as the engines see it: finite, NaN, or a signed
infinity.  Used to model the result-sanitization layer, where NaN/Inf
behaviour is the point; everywhere else exact rationals suffice. -/
inductive FVal
  | nan | inf | ninf | fin (q : ℚ)
deriving DecidableEq, Repr

/-- `np.isfinite`. -/
def FVal.isFinite : FVal → Bool
  | FVal.fin _ => true
  | _ => false

/-- The engines' `safe_num` / `_safe_num`: non-finite values become `0.0`,
finite values pass through. -/
def safeNum : FVal → FVal
  | FVal.fin q => FVal.fin q
  | _ => FVal.fin 0

/-- Float64 addition with NaN/Inf propagation. -/
def fadd : FVal → FVal → FVal
  | FVal.nan, _ => FVal.nan
  | _, FVal.nan => FVal.nan
  | FVal.inf, FVal.ninf => FVal.nan
  | FVal.ninf, FVal.inf => FVal.nan
  | FVal.inf, _ => FVal.inf
  | _, FVal.inf => FVal.inf
  | FVal.ninf, _ => FVal.ninf
  | _, FVal.ninf => FVal.ninf
  | FVal.fin a, FVal.fin b => FVal.fin (a + b)

/-- Float64 negation. -/
def fneg : FVal → FVal
  | FVal.nan => FVal.nan
  | FVal.inf => FVal.ninf
  | FVal.ninf => FVal.inf
  | FVal.fin q => FVal.fin (-q)

/-- Float64 subtraction. -/
def fsub (a b : FVal) : FVal := fadd a (fneg b)

/-- Float64 multiplication. -/
def fmul : FVal → FVal → FVal
  | FVal.nan, _ => FVal.nan
  | _, FVal.nan => FVal.nan
  | FVal.fin a, FVal.fin b => FVal.fin (a * b)
  | FVal.inf, FVal.fin b =>
    if b = 0 then FVal.nan else if 0 < b then FVal.inf else FVal.ninf
  | FVal.fin a, FVal.inf =>
    if a = 0 then FVal.nan else if 0 < a then FVal.inf else FVal.ninf
  | FVal.ninf, FVal.fin b =>
    if b = 0 then FVal.nan else if 0 < b then FVal.ninf else FVal.inf
  | FVal.fin a, FVal.ninf =>
    if a = 0 then FVal.nan else if 0 < a then FVal.ninf else FVal.inf
  | FVal.inf, FVal.inf => FVal.inf
  | FVal.inf, FVal.ninf => FVal.ninf
  | FVal.ninf, FVal.inf => FVal.ninf
  | FVal.ninf, FVal.ninf => FVal.inf

/-- NumPy float64 division (division by zero yields a signed infinity or
NaN with a warning, unlike pure-Python floats, which raise; the engines
divide NumPy scalars). -/
def fdiv : FVal → FVal → FVal
  | FVal.nan, _ => FVal.nan
  | _, FVal.nan => FVal.nan
  | FVal.inf, FVal.inf => FVal.nan
  | FVal.inf, FVal.ninf => FVal.nan
  | FVal.ninf, FVal.inf => FVal.nan
  | FVal.ninf, FVal.ninf => FVal.nan
  | FVal.inf, FVal.fin b => if b < 0 then FVal.ninf else FVal.inf
  | FVal.ninf, FVal.fin b => if b < 0 then FVal.inf else FVal.ninf
  | FVal.fin _, FVal.inf => FVal.fin 0
  | FVal.fin _, FVal.ninf => FVal.fin 0
  | FVal.fin a, FVal.fin b =>
    if b = 0 then
      (if a = 0 then FVal.nan else if 0 < a then FVal.inf else FVal.ninf)
    else FVal.fin (a / b)

/-- Float64 `>` (false on NaN operands). -/
def fgt : FVal → FVal → Bool
  | FVal.nan, _ => false
  | _, FVal.nan => false
  | FVal.fin a, FVal.fin b => decide (b < a)
  | FVal.inf, FVal.inf => false
  | FVal.inf, _ => true
  | _, FVal.inf => false
  | FVal.ninf, _ => false
  | _, FVal.ninf => true

/-- Float64 `<`. -/
def flt (a b : FVal) : Bool := fgt b a

/-- `x == 0.0` (false on NaN/Inf). -/
def feqZero : FVal → Bool
  | FVal.fin q => decide (q = 0)
  | _ => false

/-- Float64 `abs`. -/
def fabs : FVal → FVal
  | FVal.nan => FVal.nan
  | FVal.inf => FVal.inf
  | FVal.ninf => FVal.inf
  | FVal.fin q => FVal.fin |q|

/-- Python `round(x, n)` on a float64 (`round(nan, n) = nan`,
`round(inf, n) = inf`). -/
def froundN (n : Nat) : FVal → FVal
  | FVal.fin q => FVal.fin (roundN n q)
  | v => v

/-- Python `max(a, b)`: keeps the first argument unless the second
compares greater (so NaN in second position is ignored). -/
def pymax (a b : FVal) : FVal := if fgt b a then b else a

/-- `np.mean` of a float list (NaN on an empty list). -/
def fmean (l : List FVal) : FVal :=
  if l.isEmpty then FVal.nan
  else fdiv (l.foldl fadd (FVal.fin 0)) (FVal.fin (l.length : ℚ))

/-- A trade record with float64-valued numeric fields. -/
structure FTrade where
  timestamp : Nat
  action : TAction
  price : FVal
  quantity : FVal
  amount : FVal
  pnl : Option FVal
  note : Bool
deriving DecidableEq, Repr

/-- An equity-curve point with float64-valued numeric fields. -/
structure FPoint where
  timestamp : Nat
  equity : FVal
  returns : FVal
  price : FVal
deriving DecidableEq, Repr

/-- The result dict shape shared by `_run_simple_ma_strategy` and
`_calculate_final_metrics`. -/
structure FResult where
  initialCapital : ℚ
  finalEquity : FVal
  totalReturn : FVal
  winRate : FVal
  profitLossRatio : FVal
  maxDrawdown : FVal
  finalMarketPrice : FVal
  totalTrades : Nat
  trades : List FTrade
  equityCurve : List FPoint
deriving DecidableEq, Repr

/-- The closed sell trades (`pnl is not None`). -/
def sellTradesF (trades : List FTrade) : List FTrade :=
  trades.filter (fun t => t.action == TAction.sell && t.pnl.isSome)

/-- The win-rate / profit-loss-ratio block duplicated verbatim in
`_run_simple_ma_strategy` and `_calculate_final_metrics` (NaN pnls join
`sell_trades` but pass neither the `> 0` nor the `< 0` comparison). -/
def winRatePlrF (trades : List FTrade) : FVal × FVal :=
  let sellTrades := sellTradesF trades
  let winTrades := sellTrades.filter (fun t => fgt (t.pnl.getD (FVal.fin 0)) (FVal.fin 0))
  let winRate : FVal :=
    if sellTrades.length ≠ 0 then
      FVal.fin ((winTrades.length : ℚ) / (sellTrades.length : ℚ))
    else FVal.fin 0
  let plr : FVal :=
    if sellTrades.length ≠ 0 then
      let winsPnls := if winTrades.isEmpty then []
        else winTrades.map (fun t => t.pnl.getD (FVal.fin 0))
      let lossesPnls := (sellTrades.filter
        (fun t => flt (t.pnl.getD (FVal.fin 0)) (FVal.fin 0))).map
          (fun t => t.pnl.getD (FVal.fin 0))
      let avgWin := if 0 < winsPnls.length then fmean winsPnls else FVal.fin 0
      let avgLoss := if 0 < lossesPnls.length then fmean lossesPnls else FVal.fin 0
      if feqZero avgLoss then FVal.fin 0
      else
        let v := fabs (fdiv avgWin avgLoss)
        if v.isFinite then v else FVal.fin 0
    else FVal.fin 0
  (winRate, plr)

/-- `RealBacktestEngine._calculate_max_drawdown` over float64 equities
(the division by the running peak is unguarded). -/
def calcMaxDrawdownF (equityCurve : List FPoint) : FVal :=
  match equityCurve with
  | [] => FVal.fin 0
  | p0 :: _ =>
    (equityCurve.foldl
      (fun (acc : FVal × FVal) p =>
        let peak := if fgt p.equity acc.1 then p.equity else acc.1
        let drawdown := fdiv (fsub peak p.equity) peak
        (peak, pymax acc.2 drawdown))
      (p0.equity, FVal.fin 0)).2

/-- `RealBacktestEngine._calculate_final_metrics` (the result path of the
MA / RSI / Bollinger / MACD / VWAP / volume strategies): the metric values
are rounded but **not** passed through `safe_num`, and the trade list and
equity curve are returned verbatim. -/
def calcFinalMetricsF (initialCapital : ℚ) (currentCapital : FVal)
    (position : Int) (lastClose : FVal) (trades : List FTrade)
    (equityCurve : List FPoint) : FResult :=
  let finalEquity := fadd currentCapital (fmul (FVal.fin (position : ℚ)) lastClose)
  let totalReturn := fdiv (fsub finalEquity (FVal.fin initialCapital))
    (FVal.fin initialCapital)
  let wp := winRatePlrF trades
  { initialCapital := initialCapital,
    finalEquity := froundN 2 finalEquity,
    totalReturn := froundN 4 totalReturn,
    winRate := froundN 4 wp.1,
    profitLossRatio := froundN 4 wp.2,
    maxDrawdown := froundN 4 (calcMaxDrawdownF equityCurve),
    finalMarketPrice := froundN 2 lastClose,
    totalTrades := trades.length,
    trades := trades,
    equityCurve := equityCurve }

/-- The per-trade cleaning loop of `_run_simple_ma_strategy`
(`safe_num` over price, quantity, amount and a non-null pnl). -/
def cleanTradeF (t : FTrade) : FTrade :=
  { t with price := safeNum t.price, quantity := safeNum t.quantity,
           amount := safeNum t.amount, pnl := t.pnl.map safeNum }

/-- The per-point cleaning loop of `_run_simple_ma_strategy`. -/
def cleanPointF (p : FPoint) : FPoint :=
  { p with equity := safeNum p.equity, returns := safeNum p.returns,
           price := safeNum p.price }

/-- The result assembly of `_run_simple_ma_strategy` (lines 271-339): the
same metrics, but every scalar passes through `safe_num` and the trade
list and equity curve are cleaned element by element. -/
def simpleMaAssemble (initialCapital : ℚ) (currentCapital : FVal)
    (position : Int) (lastClose : FVal) (trades : List FTrade)
    (equityCurve : List FPoint) : FResult :=
  let finalEquity := fadd currentCapital (fmul (FVal.fin (position : ℚ)) lastClose)
  let totalReturn := fdiv (fsub finalEquity (FVal.fin initialCapital))
    (FVal.fin initialCapital)
  let wp := winRatePlrF trades
  { initialCapital := initialCapital,
    finalEquity := safeNum (froundN 2 finalEquity),
    totalReturn := safeNum (froundN 4 totalReturn),
    winRate := safeNum (froundN 4 wp.1),
    profitLossRatio := safeNum (froundN 4 wp.2),
    maxDrawdown := safeNum (froundN 4 (calcMaxDrawdownF equityCurve)),
    finalMarketPrice := safeNum (froundN 2 lastClose),
    totalTrades := trades.length,
    trades := trades.map cleanTradeF,
    equityCurve := equityCurve.map cleanPointF }

theorem safeNum_finite (v : FVal) : (safeNum v).isFinite = true := by
  cases v <;> rfl

theorem cleanTradeF_finite (t : FTrade) :
    ((cleanTradeF t).price.isFinite && (cleanTradeF t).quantity.isFinite &&
     (cleanTradeF t).amount.isFinite &&
     ((cleanTradeF t).pnl.getD (FVal.fin 0)).isFinite) = true := by
  rcases t with ⟨ts, a, p, q, am, pnl, note⟩
  rcases pnl with - | v
  · cases p <;> cases q <;> cases am <;> rfl
  · cases p <;> cases q <;> cases am <;> cases v <;> rfl

theorem cleanPointF_finite (p : FPoint) :
    ((cleanPointF p).equity.isFinite && (cleanPointF p).returns.isFinite &&
     (cleanPointF p).price.isFinite) = true := by
  rcases p with ⟨ts, e, r, pr⟩
  cases e <;> cases r <;> cases pr <;> rfl

/-- C9 (amended): the zero-condition simple-MA path sanitizes everything it
returns — every scalar metric, every numeric trade field and every
equity-curve field of its result is finite, for arbitrary (even NaN or
infinite) intermediate values. -/
theorem C9_simple_ma_sanitizes (initialCapital : ℚ) (currentCapital : FVal)
    (position : Int) (lastClose : FVal) (trades : List FTrade)
    (equityCurve : List FPoint) :
    (simpleMaAssemble initialCapital currentCapital position lastClose trades
        equityCurve).finalEquity.isFinite = true ∧
    (simpleMaAssemble initialCapital currentCapital position lastClose trades
        equityCurve).totalReturn.isFinite = true ∧
    (simpleMaAssemble initialCapital currentCapital position lastClose trades
        equityCurve).winRate.isFinite = true ∧
    (simpleMaAssemble initialCapital currentCapital position lastClose trades
        equityCurve).profitLossRatio.isFinite = true ∧
    (simpleMaAssemble initialCapital currentCapital position lastClose trades
        equityCurve).maxDrawdown.isFinite = true ∧
    (simpleMaAssemble initialCapital currentCapital position lastClose trades
        equityCurve).finalMarketPrice.isFinite = true ∧
    ((simpleMaAssemble initialCapital currentCapital position lastClose trades
        equityCurve).trades.all
      (fun t => t.price.isFinite && t.quantity.isFinite &&
        t.amount.isFinite && (t.pnl.getD (FVal.fin 0)).isFinite)) = true ∧
    ((simpleMaAssemble initialCapital currentCapital position lastClose trades
        equityCurve).equityCurve.all
      (fun p => p.equity.isFinite && p.returns.isFinite &&
        p.price.isFinite)) = true := by
  refine ⟨safeNum_finite _, safeNum_finite _, safeNum_finite _,
    safeNum_finite _, safeNum_finite _, safeNum_finite _, ?_, ?_⟩
  · rw [List.all_eq_true]
    intro t ht
    rcases List.mem_map.mp ht with ⟨t0, -, rfl⟩
    exact cleanTradeF_finite t0
  · rw [List.all_eq_true]
    intro p hp
    rcases List.mem_map.mp hp with ⟨p0, -, rfl⟩
    exact cleanPointF_finite p0

/-- NaN-pnl sell trade for the C9 counterexample. -/
def C9trades : List FTrade :=
  [{ timestamp := 0, action := TAction.sell, price := FVal.fin 10,
     quantity := FVal.fin 100, amount := FVal.fin 1000,
     pnl := some FVal.nan, note := false }]

/-- C9 counterexample: `_calculate_final_metrics` — the result path of
every strategy except the simple-MA default — returns the trade list
verbatim; a NaN realized pnl reaches the returned result unreplaced, so
NaN/Inf sanitization does not happen on every strategy path. -/
theorem C9_counterexample :
    (calcFinalMetricsF 100000 (FVal.fin 50000) 0 (FVal.fin 10) C9trades
        []).trades.map (fun t => t.pnl) = [some FVal.nan] ∧
    ((calcFinalMetricsF 100000 (FVal.fin 50000) 0 (FVal.fin 10) C9trades
        []).trades.all
      (fun t => (t.pnl.getD (FVal.fin 0)).isFinite)) = false := by
  refine ⟨by decide, by decide⟩
